import Mathlib

/-!
# Verification of the Carbon-Sensors ns-3 telemetry core

Shallow embedding of the telemetry protocol and aggregation logic of
`src/scenarios/iot-connectivity.cc` (flat topology) and
`src/scenarios/iot-hierarchical.cc` (hierarchical topology):

* reading generation (`CO2SensorApplication::GenerateCO2Value`),
* wire encoding (`CO2SensorApplication::SendCO2Reading`) and decoding
  (`CarbonGatewayApplication::ProcessCO2Data`,
  `MainGatewayApplication::ProcessData`),
* relay forwarding (`LocalAPApplication`),
* stateful aggregation and delivery accounting (global counters and the
  per-sensor `std::map`s).

C++ `double` arithmetic is modelled over `ℚ` (exact values; IEEE rounding is
abstracted), and the decimal text that `operator<<` prints for a `double` is
carried as an explicit character list, since the codec operates on that text.
Machine integers are `Nat`/`Int` with explicit range conditions where the code
depends on them (`std::stoi` parses through `int`, `uint32_t` conversion is
reduction mod 2^32, `std::stoull` is bounded by 2^64).
-/

namespace CarbonSensors

/-! ## Reading generation (`GenerateCO2Value`)

`iot-connectivity.cc` lines 174–196: `co2Value = m_baselineCO2 + variation`
with `variation = rand->GetValue(-50.0, 50.0)`, then two clamping `if`s.
`iot-hierarchical.cc` lines 129–136: same, but clamped with
`std::max(300.0, std::min(3000.0, co2Value))`.
The random draw is an input of the model. -/

/-- Flat-topology clamp: `if (co2Value < 300) co2Value = 300;
if (co2Value > 3000) co2Value = 3000;` applied in sequence. -/
def clampFlat (x : ℚ) : ℚ :=
  let a := if x < 300 then (300 : ℚ) else x
  if 3000 < a then 3000 else a

/-- `CO2SensorApplication::GenerateCO2Value` of `iot-connectivity.cc`. -/
def generateCO2Flat (baseline variation : ℚ) : ℚ :=
  clampFlat (baseline + variation)

/-- `CO2SensorApplication::GenerateCO2Value` of `iot-hierarchical.cc`:
`std::max(300.0, std::min(3000.0, co2Value))`. -/
def generateCO2Hier (baseline variation : ℚ) : ℚ :=
  max 300 (min 3000 (baseline + variation))

/-! ## Delivery ratio (`main`, both scenarios)

`double deliveryRatio = (totalPacketsSent > 0)
  ? (double)totalPacketsReceived / totalPacketsSent * 100.0 : 0.0;`
(`iot-connectivity.cc` lines 789–790 and `iot-hierarchical.cc` 658–659,
the two expressions being character-for-character the same formula). -/

/-- Delivery-ratio computation at shutdown. -/
def deliveryRatio (totalReceived totalSent : Nat) : ℚ :=
  if 0 < totalSent then (totalReceived : ℚ) / (totalSent : ℚ) * 100 else 0

/-! ## Sensor send counter (`SendCO2Reading`)

`int actual = m_socket->Send(packet); if (actual > 0) { totalPacketsSent++; }`
(flat, lines 224–243); the hierarchical sensor is
`if (m_socket->Send(packet) > 0) { totalPacketsSent++; }` (lines 148–158).
On failure the packet is only logged; there is no retry and no counter
change.  The send return value is an input of the model. -/

/-- One send attempt's effect on the shared `totalPacketsSent` counter. -/
def sendCountStep (totalSent : Nat) (actual : Int) : Nat :=
  if 0 < actual then totalSent + 1 else totalSent

/-! ## Zone relay (`LocalAPApplication`, hierarchical only)

`HandleRead` (lines 249–264): for each received packet with
`GetSize() > 0`, `m_packetsReceived++` then `ForwardToGateway(packet)` on the
very same `Ptr<Packet>`.  `ForwardToGateway` (lines 266–276): if
`m_forwardSocket->Send(packet) > 0` then `m_packetsForwarded++`.
A relay event is the pair (payload bytes, result of the forwarding `Send`). -/

structure RelayState where
  received : Nat
  forwarded : Nat
  /-- Byte payloads successfully forwarded, in order (each is the very
  packet received, untouched). -/
  out : List (List Char)
deriving DecidableEq, Repr

/-- Constructor state of `LocalAPApplication`: both counters zero. -/
def relayInit : RelayState := ⟨0, 0, []⟩

/-- Handling of one inbound packet by the relay.  `ev.1` is the payload,
`ev.2` the return value of the forwarding `Send` call. -/
def relayStep (st : RelayState) (ev : List Char × Int) : RelayState :=
  if 0 < ev.1.length then
    { received := st.received + 1
      forwarded := st.forwarded + (if 0 < ev.2 then 1 else 0)
      out := st.out ++ (if 0 < ev.2 then [ev.1] else []) }
  else st

/-- Which relay events produce a successful forward. -/
def relayFwdOk (ev : List Char × Int) : Bool :=
  if 0 < ev.1.length then (if 0 < ev.2 then true else false) else false

/-! ## Decimal rendering of unsigned integers

`oss << m_sensorId` (and the other integer fields) prints the decimal digit
string of the value.  Fuel-based so that it reduces definitionally. -/

/-- The decimal digit character for `d < 10`. -/
def digitChar (d : Nat) : Char := Char.ofNat (48 + d)

def natDigitsAux : Nat → Nat → List Char
  | 0, _ => []
  | fuel + 1, n =>
    if n < 10 then [digitChar n]
    else natDigitsAux fuel (n / 10) ++ [digitChar (n % 10)]

/-- Decimal rendering of an unsigned integer, as `operator<<` prints it. -/
def natDigits (n : Nat) : List Char := natDigitsAux (n + 1) n

/-- Value of a decimal digit string (most significant first). -/
def digitsVal (l : List Char) : Nat :=
  l.foldl (fun a c => a * 10 + (c.toNat - 48)) 0

/-! ## The numeric parsers of the decode path

`ProcessCO2Data` / `ProcessData` call `std::stoi`, `std::stod` and
`std::stoull` on the extracted substrings.  None of these calls is inside a
`try` block, so a parse failure (`std::invalid_argument`) or an
out-of-range value (`std::out_of_range`) propagates out of the handler as an
uncaught exception; `none` below models exactly that outcome. -/

/-- The whitespace class skipped by the `strto*` family (C `isspace`). -/
def isCSpace (c : Char) : Bool :=
  c = ' ' ∨ c = '\t' ∨ c = '\n' ∨ c = Char.ofNat 11 ∨ c = Char.ofNat 12 ∨
    c = '\r'

/-- Optional single leading '+' or '-': (negative?, sign text, rest). -/
def signSplit : List Char → Bool × List Char × List Char
  | '+' :: t => (false, ['+'], t)
  | '-' :: t => (true, ['-'], t)
  | t => (false, [], t)

def intMax : Int := 2147483647

def intMin : Int := -2147483648

/-- `std::stoi` (base 10): skip whitespace, optional sign, longest digit run,
ignore the rest.  `none` when it throws: no digits at all
(`invalid_argument`), or a value outside `int` (`out_of_range`). -/
def cppStoi (s : List Char) : Option Int :=
  let p := signSplit (s.dropWhile isCSpace)
  let d := p.2.2.takeWhile Char.isDigit
  if d.isEmpty then none
  else
    let v : Int := if p.1 then -(digitsVal d : Int) else (digitsVal d : Int)
    if v < intMin ∨ intMax < v then none else some v

def uint64Size : Nat := 18446744073709551616

/-- `std::stoull`: as `cppStoi` but unsigned 64-bit; a '-' sign negates
modulo 2^64 (C `strtoull` semantics), and a magnitude beyond
`ULLONG_MAX` throws `out_of_range`. -/
def cppStoull (s : List Char) : Option Nat :=
  let p := signSplit (s.dropWhile isCSpace)
  let d := p.2.2.takeWhile Char.isDigit
  if d.isEmpty then none
  else if uint64Size ≤ digitsVal d then none
  else some (if p.1 then (uint64Size - digitsVal d) % uint64Size else digitsVal d)

/-- A floating-point field value: the exact text the sensor printed for the
`double`, together with the exact rational value of that decimal literal
(IEEE rounding of the literal to a `double` is abstracted to the exact
value; no claim depends on the rounded bits). -/
structure FloatVal where
  text : List Char
  val : ℚ
deriving DecidableEq, Repr

/-- Exponent part of a `strtod` literal: `[eE][+-]?digits`, backing off
entirely (consuming nothing) when no digit follows, as `strtod` does.
Returns (exponent, consumed text, rest). -/
def parseExp (s : List Char) : Int × List Char × List Char :=
  match s with
  | c :: rest =>
    if c = 'e' ∨ c = 'E' then
      match rest with
      | '+' :: r2 =>
        if (r2.takeWhile Char.isDigit).isEmpty then (0, [], s)
        else ((digitsVal (r2.takeWhile Char.isDigit) : Int),
              c :: '+' :: r2.takeWhile Char.isDigit, r2.dropWhile Char.isDigit)
      | '-' :: r2 =>
        if (r2.takeWhile Char.isDigit).isEmpty then (0, [], s)
        else (-(digitsVal (r2.takeWhile Char.isDigit) : Int),
              c :: '-' :: r2.takeWhile Char.isDigit, r2.dropWhile Char.isDigit)
      | r2 =>
        if (r2.takeWhile Char.isDigit).isEmpty then (0, [], s)
        else ((digitsVal (r2.takeWhile Char.isDigit) : Int),
              c :: r2.takeWhile Char.isDigit, r2.dropWhile Char.isDigit)
    else (0, [], s)
  | [] => (0, [], s)

/-- Mantissa of a `strtod` literal: `digits[.digits]` or `.digits`; at least
one digit is required.  Returns (value, consumed text, rest). -/
def parseMant (s : List Char) : Option (ℚ × List Char × List Char) :=
  match s.dropWhile Char.isDigit with
  | '.' :: r2 =>
    if (s.takeWhile Char.isDigit).isEmpty ∧ (r2.takeWhile Char.isDigit).isEmpty
    then none
    else some ((digitsVal (s.takeWhile Char.isDigit) : ℚ) +
                 (digitsVal (r2.takeWhile Char.isDigit) : ℚ) /
                   (10 : ℚ) ^ (r2.takeWhile Char.isDigit).length,
               s.takeWhile Char.isDigit ++ '.' :: r2.takeWhile Char.isDigit,
               r2.dropWhile Char.isDigit)
  | r1 =>
    if (s.takeWhile Char.isDigit).isEmpty then none
    else some ((digitsVal (s.takeWhile Char.isDigit) : ℚ),
               s.takeWhile Char.isDigit, r1)

/-- `std::stod`: decimal `strtod` grammar — whitespace, optional sign,
mantissa, optional exponent; trailing characters are ignored.  Returns the
parsed value with its consumed text, and the unconsumed remainder; `none`
when `strtod` finds no number and `stod` throws `invalid_argument`.  (The
hexadecimal and inf/nan literal forms never arise in this system's payload
alphabet and are not modelled.) -/
def stodParse (s : List Char) : Option (FloatVal × List Char) :=
  let ws := s.takeWhile isCSpace
  let p := signSplit (s.dropWhile isCSpace)
  match parseMant p.2.2 with
  | none => none
  | some (m, mtxt, r1) =>
    let e := parseExp r1
    some (⟨ws ++ p.2.1 ++ mtxt ++ e.2.1,
           (if p.1 then -m else m) * (10 : ℚ) ^ e.1⟩, e.2.2)

/-! ## Tag location (`std::string::find`) -/

/-- Index of the first occurrence of `pat` in the payload, as
`std::string::find` computes it (`none` = `std::string::npos`). -/
def findSub (pat : List Char) : List Char → Option Nat
  | [] => if pat.isEmpty then some 0 else none
  | c :: rest =>
    if pat.isPrefixOf (c :: rest) then some 0
    else (findSub pat rest).map (· + 1)

/-- `pat` occurs in `s` starting at index `i`. -/
def occursAt (pat s : List Char) (i : Nat) : Bool := pat.isPrefixOf (s.drop i)

def tagSENSOR : List Char := ['S', 'E', 'N', 'S', 'O', 'R', ':']

def tagCOMPANY : List Char := ['C', 'O', 'M', 'P', 'A', 'N', 'Y', ':']

def tagCO2 : List Char := ['C', 'O', '2', ':']

def tagTIME : List Char := ['T', 'I', 'M', 'E', ':']

def tagZONE : List Char := ['Z', 'O', 'N', 'E', ':']

/-! ## Readings and the wire encoding (`SendCO2Reading`) -/

/-- A flat-topology reading as transmitted: `m_sensorId` and `m_companyId`
are `uint32_t`, the CO2 value is carried as the text `operator<<` printed
(with its rational value), and the timestamp (`GetMicroSeconds`) is
`uint64_t`.  The integer fields are `Nat`; the machine ranges appear as
hypotheses where the code depends on them. -/
structure FlatReading where
  sensorId : Nat
  companyId : Nat
  co2 : FloatVal
  time : Nat
deriving DecidableEq, Repr

/-- `oss << "SENSOR:" << m_sensorId << ",COMPANY:" << m_companyId
<< ",CO2:" << co2Value << ",TIME:" << timestamp` (flat, lines 212–221). -/
def encodeFlat (r : FlatReading) : List Char :=
  tagSENSOR ++ natDigits r.sensorId ++ [','] ++
    tagCOMPANY ++ natDigits r.companyId ++ [','] ++
    tagCO2 ++ r.co2.text ++ [','] ++
    tagTIME ++ natDigits r.time

/-- A hierarchical-topology reading: no timestamp field. -/
structure HierReading where
  sensorId : Nat
  zoneId : Nat
  co2 : FloatVal
deriving DecidableEq, Repr

/-- `oss << "SENSOR:" << m_sensorId << ",ZONE:" << m_zoneId
<< ",CO2:" << co2Value` (hierarchical, lines 139–146). -/
def encodeHier (r : HierReading) : List Char :=
  tagSENSOR ++ natDigits r.sensorId ++ [','] ++
    tagZONE ++ natDigits r.zoneId ++ [','] ++
    tagCO2 ++ r.co2.text

/-! ## Decoding (`ProcessCO2Data` / `ProcessData`) -/

/-- Outcome of the decode path: a parsed reading, the malformed-packet branch
(all that happens is a warning log), or an uncaught exception from
`std::stoi`/`std::stod`/`std::stoull` aborting the process. -/
inductive DecodeOutcome (α : Type) where
  | ok (r : α)
  | malformed
  | exn
deriving DecidableEq, Repr

/-- The `size_t` subtraction `a - b` used as a `substr` length.  On
underflow it wraps to at least `2^64 - b`, which exceeds the remaining
payload (payloads live in a 1024-byte buffer), so `substr` clamps to the
rest of the string; passing `total` (the payload length) to `take` yields
that same clamp. -/
def szsub (total a b : Nat) : Nat := if b ≤ a then a - b else total

/-- The implicit `int → uint32_t` conversion: reduction modulo 2^32. -/
def toU32 (v : Int) : Nat := (v % (2 ^ 32 : Int)).toNat

/-- `CarbonGatewayApplication::ProcessCO2Data` parsing stage (lines
398–443), applied to the NUL-terminated string read from the buffer:
locate the four tags by first occurrence (`malformed` if any is `npos`),
then `sensorId = stoi(substr(sensorPos+7, companyPos-sensorPos-8))`,
`companyId = stoi(substr(companyPos+8, co2Pos-companyPos-9))`,
`co2Value = stod(substr(co2Pos+4, timePos-co2Pos-5))`,
`timestamp = stoull(substr(timePos+5))`. -/
def decodeFlat (p : List Char) : DecodeOutcome FlatReading :=
  match findSub tagSENSOR p, findSub tagCOMPANY p,
        findSub tagCO2 p, findSub tagTIME p with
  | some sp, some cp, some op, some tp =>
    let idStr := (p.drop (sp + 7)).take (szsub p.length cp (sp + 8))
    let coStr := (p.drop (cp + 8)).take (szsub p.length op (cp + 9))
    let c2Str := (p.drop (op + 4)).take (szsub p.length tp (op + 5))
    let tmStr := p.drop (tp + 5)
    match cppStoi idStr, cppStoi coStr, stodParse c2Str, cppStoull tmStr with
    | some i, some c, some f, some t => .ok ⟨toU32 i, toU32 c, f.1, t⟩
    | _, _, _, _ => .exn
  | _, _, _, _ => .malformed

/-- `MainGatewayApplication::ProcessData` parsing stage (lines 358–380):
three tags, `sensorId = stoi(substr(sensorPos+7, zonePos-sensorPos-8))`,
`zoneId = stoi(substr(zonePos+5, co2Pos-zonePos-6))`,
`co2Value = stod(substr(co2Pos+4))`. -/
def decodeHier (p : List Char) : DecodeOutcome HierReading :=
  match findSub tagSENSOR p, findSub tagZONE p, findSub tagCO2 p with
  | some sp, some zp, some op =>
    let idStr := (p.drop (sp + 7)).take (szsub p.length zp (sp + 8))
    let znStr := (p.drop (zp + 5)).take (szsub p.length op (zp + 6))
    let c2Str := p.drop (op + 4)
    match cppStoi idStr, cppStoi znStr, stodParse c2Str with
    | some i, some z, some f => .ok ⟨toU32 i, toU32 z, f.1⟩
    | _, _, _ => .exn
  | _, _, _ => .malformed

/-! ## The collector state (global maps and counters)

`totalCO2BySensor : std::map<uint32_t,double>`,
`packetCountBySensor : std::map<uint32_t,uint32_t>`,
`totalPacketsReceived : uint32_t`.  The ordered `std::map` is modelled as an
association list with unique keys (`operator[]` value-initialises an absent
entry to zero); the map's key ordering is irrelevant to every claim and is
abstracted. -/

/-- `totalCO2BySensor[sensorId] += co2Value`. -/
def mapAddQ : List (Nat × ℚ) → Nat → ℚ → List (Nat × ℚ)
  | [], k, v => [(k, 0 + v)]
  | (k', x) :: rest, k, v =>
    if k' = k then (k', x + v) :: rest else (k', x) :: mapAddQ rest k v

/-- `packetCountBySensor[sensorId]++`. -/
def mapIncr : List (Nat × Nat) → Nat → List (Nat × Nat)
  | [], k => [(k, 0 + 1)]
  | (k', x) :: rest, k =>
    if k' = k then (k', x + 1) :: rest else (k', x) :: mapIncr rest k

structure GatewayState where
  totalReceived : Nat
  sums : List (Nat × ℚ)
  counts : List (Nat × Nat)
deriving DecidableEq

/-- Program start: counters zero, maps empty. -/
def gatewayInit : GatewayState := ⟨0, [], []⟩

/-- Per-sensor accumulated CO2 (`0` when absent, as `operator[]` would
insert). -/
def sumOf (st : GatewayState) (k : Nat) : ℚ := (st.sums.lookup k).getD 0

/-- Per-sensor reading count. -/
def countOf (st : GatewayState) (k : Nat) : Nat := (st.counts.lookup k).getD 0

/-- Whether an aggregate entry exists for `k`. -/
def present (st : GatewayState) (k : Nat) : Bool := (st.counts.lookup k).isSome

/-- `CarbonGatewayApplication::HandleRead` (lines 354–371) handling one
arriving packet: packets of size 0 are skipped entirely; otherwise
`totalPacketsReceived++` first, then `ProcessCO2Data`, which updates both
maps only on a fully successful parse. -/
def gatewayStep (st : GatewayState) (p : List Char) : GatewayState :=
  if 0 < p.length then
    let st1 : GatewayState := { st with totalReceived := st.totalReceived + 1 }
    match decodeFlat p with
    | .ok r => { st1 with sums := mapAddQ st1.sums r.sensorId r.co2.val
                          counts := mapIncr st1.counts r.sensorId }
    | _ => st1
  else st

/-- `MainGatewayApplication::HandleRead` + `ProcessData` (hierarchical,
lines 337–380): identical structure over the hierarchical decoder. -/
def hierGatewayStep (st : GatewayState) (p : List Char) : GatewayState :=
  if 0 < p.length then
    let st1 : GatewayState := { st with totalReceived := st.totalReceived + 1 }
    match decodeHier p with
    | .ok r => { st1 with sums := mapAddQ st1.sums r.sensorId r.co2.val
                          counts := mapIncr st1.counts r.sensorId }
    | _ => st1
  else st

/-! ## The 1024-byte receive buffer (`ProcessCO2Data` lines 394–396,
`ProcessData` lines 355–357)

`uint8_t buffer[1024]; packet->CopyData(buffer, packet->GetSize());
buffer[packet->GetSize()] = '\0'; std::string data((char*)buffer);`
Writes are modelled with explicit bounds: `none` marks an out-of-bounds
write (undefined behavior). -/

def nulChar : Char := Char.ofNat 0

def bufferSize : Nat := 1024

/-- `CopyData(buffer, size)`: copy the payload to the front of the buffer;
out of bounds when the payload is longer than the buffer. -/
def memWrite (buf src : List Char) : Option (List Char) :=
  if src.length ≤ buf.length then some (src ++ buf.drop src.length) else none

/-- `buffer[i] = c` with its bounds condition. -/
def pokeAt (buf : List Char) (i : Nat) (c : Char) : Option (List Char) :=
  if i < buf.length then some (buf.set i c) else none

/-- The two buffer writes of the decode path; `init` is the arbitrary prior
stack content of the 1024-byte array. -/
def bufferPrepare (init payload : List Char) : Option (List Char) :=
  (memWrite init payload).bind (fun b => pokeAt b payload.length nulChar)

/-- `std::string data((char*)buffer)`: the characters before the first NUL. -/
def cstrOf (buf : List Char) : List Char := buf.takeWhile (fun c => c != nulChar)

/-- The whole of `ProcessCO2Data`: buffer handling, then the parse; `none`
when a buffer write is out of bounds. -/
def processCO2Data (init payload : List Char) : Option (DecodeOutcome FlatReading) :=
  (bufferPrepare init payload).map (fun b => decodeFlat (cstrOf b))

/-! ## Sensor scheduling (`StartApplication` / `SendCO2Reading` /
`StopApplication`)

`m_sendEvent` is the single pending scheduled `SendCO2Reading` event,
modelled as the optional time at which it will fire; `m_interval` is 5 s.
`SendCO2Reading` (lines 198–244) always runs as the firing of that event
(or the initial call from `StartApplication`): it sends, counts the send on
success, and — whatever `Send` returned — schedules the next emission at
`now + m_interval` iff `m_running`.  `StopApplication` (lines 155–172)
clears `m_running` and cancels the pending event if there is one. -/

def sensorInterval : ℚ := 5

structure SensorSched where
  running : Bool
  /-- Scheduled time of the pending `m_sendEvent`, if any. -/
  pending : Option ℚ
  totalSent : Nat
deriving DecidableEq, Repr

/-- `StopApplication`: `m_running = false`, then
`if (m_sendEvent.IsPending()) Simulator::Cancel(m_sendEvent)` — in either
case no event remains pending. -/
def stopStep (st : SensorSched) : SensorSched := ⟨false, none, st.totalSent⟩

/-- The pending `SendCO2Reading` event fires (consuming itself): the send is
attempted with result `actual`, counted iff positive, and the next emission
is scheduled at `now + interval` iff still running — regardless of
`actual`.  The `Bool` records whether an emission happened (no event
pending means nothing fires). -/
def fireStep (actual : Int) (st : SensorSched) : SensorSched × Bool :=
  match st.pending with
  | none => (st, false)
  | some t =>
    (⟨st.running,
      if st.running then some (t + sensorInterval) else none,
      sendCountStep st.totalSent actual⟩, true)

/-- Events the scheduler can deliver to a sensor after it has started. -/
inductive SensorEv where
  | fire (actual : Int)
  | stop
deriving DecidableEq, Repr

def sensorEvStep (st : SensorSched) (ev : SensorEv) : SensorSched × Bool :=
  match ev with
  | .fire a => fireStep a st
  | .stop => (stopStep st, false)

/-- Run a sequence of events, counting emissions. -/
def runSensor : SensorSched → List SensorEv → SensorSched × Nat
  | st, [] => (st, 0)
  | st, ev :: rest =>
    let s1 := sensorEvStep st ev
    let s2 := runSensor s1.1 rest
    (s2.1, (if s1.2 then 1 else 0) + s2.2)

end CarbonSensors

namespace CarbonSensors

/-- **C4.** For every generated reading the pre-clamp value
`baseline + variation` lies in `[baseline − 50, baseline + 50]` whenever the
uniform draw lies in `[-50, 50]`, and the value returned by
`GenerateCO2Value` lies in `[300, 3000]` for every baseline, in both the
flat-topology implementation (two sequential `if`s) and the hierarchical one
(`max`/`min`). -/
theorem generateCO2_bounds (b v : ℚ) (hlo : -50 ≤ v) (hhi : v ≤ 50) :
    (b - 50 ≤ b + v ∧ b + v ≤ b + 50) ∧
    (300 ≤ generateCO2Flat b v ∧ generateCO2Flat b v ≤ 3000) ∧
    (300 ≤ generateCO2Hier b v ∧ generateCO2Hier b v ≤ 3000) := by
  refine ⟨⟨by linarith, by linarith⟩, ?_, ?_⟩
  · unfold generateCO2Flat clampFlat
    dsimp only
    split_ifs <;> constructor <;> linarith
  · unfold generateCO2Hier
    constructor
    · exact le_max_left _ _
    · exact max_le (by norm_num) (min_le_left _ _)

/-- Witness for `generateCO2_bounds` at baseline 400 and variation 25. -/
theorem generateCO2_bounds_witness :
    (400 - 50 ≤ (400 : ℚ) + 25 ∧ (400 : ℚ) + 25 ≤ 400 + 50) ∧
    (300 ≤ generateCO2Flat 400 25 ∧ generateCO2Flat 400 25 ≤ 3000) ∧
    (300 ≤ generateCO2Hier 400 25 ∧ generateCO2Hier 400 25 ≤ 3000) :=
  generateCO2_bounds 400 25 (by norm_num) (by norm_num)

/-- **C5.** At shutdown `deliveryRatio` equals
`totalReceived / totalSent * 100` whenever `totalSent > 0` and equals exactly
`0` when `totalSent = 0`, for every pair of counter values; the division is
only taken in the guarded branch with a nonzero denominator. -/
theorem deliveryRatio_spec (recv sent : Nat) :
    (0 < sent → deliveryRatio recv sent = (recv : ℚ) / (sent : ℚ) * 100) ∧
    (sent = 0 → deliveryRatio recv sent = 0) := by
  constructor
  · intro h
    unfold deliveryRatio
    simp [h]
  · intro h
    subst h
    unfold deliveryRatio
    simp

/-- Witness for `deliveryRatio_spec`: 3 of 4 packets gives 75 %, and a run
with nothing sent reports 0. -/
theorem deliveryRatio_spec_witness :
    deliveryRatio 3 4 = (3 : ℚ) / 4 * 100 ∧ deliveryRatio 3 0 = 0 :=
  ⟨(deliveryRatio_spec 3 4).1 (by norm_num), (deliveryRatio_spec 3 0).2 rfl⟩

/-- **C7.** The shared `totalPacketsSent` counter is incremented exactly when
the `Send` call returns a positive value; a failed send leaves it unchanged
(the packet is dropped, never retried), so after any sequence of send
attempts across all sensors the counter equals its initial value plus the
number of successful send calls. -/
theorem totalSent_counts_successes (t0 : Nat) (actuals : List Int) :
    actuals.foldl sendCountStep t0 =
      t0 + actuals.countP (fun a => decide (0 < a)) ∧
    (∀ t a, a ≤ 0 → sendCountStep t a = t) ∧
    (∀ t a, 0 < a → sendCountStep t a = t + 1) := by
  refine ⟨?_, ?_, ?_⟩
  · induction actuals generalizing t0 with
    | nil => simp
    | cons a rest ih =>
      rw [List.foldl_cons, List.countP_cons, ih]
      unfold sendCountStep
      by_cases h : 0 < a
      · simp [h]
        omega
      · simp [h]
  · intro t a h
    unfold sendCountStep
    simp [Int.not_lt.mpr h]
  · intro t a h
    unfold sendCountStep
    simp [h]

/-- Witness for `totalSent_counts_successes` on the trace
`[1, -1, 5, 0]` (two successes). -/
theorem totalSent_counts_successes_witness :
    ([1, -1, 5, 0] : List Int).foldl sendCountStep 0 =
      0 + ([1, -1, 5, 0] : List Int).countP (fun a => decide (0 < a)) ∧
    sendCountStep 7 (-3) = 7 ∧ sendCountStep 7 2 = 7 + 1 :=
  ⟨(totalSent_counts_successes 0 [1, -1, 5, 0]).1,
   (totalSent_counts_successes 0 []).2.1 7 (-3) (by norm_num),
   (totalSent_counts_successes 0 []).2.2 7 2 (by norm_num)⟩

/-- Along any relay trace from the constructor state, `forwarded ≤ received`
and the forwarded bytes are exactly the successfully forwarded nonempty
payloads, unmodified. -/
theorem relay_fold_spec (st : RelayState) (evs : List (List Char × Int)) :
    st.forwarded ≤ st.received →
    ((evs.foldl relayStep st).forwarded ≤ (evs.foldl relayStep st).received ∧
     (evs.foldl relayStep st).out =
       st.out ++ (evs.filter relayFwdOk).map Prod.fst) := by
  induction evs generalizing st with
  | nil => intro h; simpa using h
  | cons ev rest ih =>
    intro h
    rw [List.foldl_cons, List.filter_cons]
    have hstep : (relayStep st ev).forwarded ≤ (relayStep st ev).received := by
      unfold relayStep
      split
      · simp only
        split <;> omega
      · exact h
    refine ⟨(ih _ hstep).1, ?_⟩
    rw [(ih _ hstep).2]
    unfold relayStep relayFwdOk
    by_cases h1 : 0 < ev.1.length
    · by_cases h2 : 0 < ev.2 <;> simp [h1, h2]
    · simp [h1]

/-- **C8.** Relay invariant: on every nonempty received packet the relay
increments `received` and synchronously attempts to forward the same encoded
bytes, incrementing `forwarded` only when that `Send` succeeds; consequently
in every state reachable from the constructor state `forwarded ≤ received`,
and the forwarded payloads are exactly the received ones whose forward
succeeded, byte-for-byte. -/
theorem relay_invariant (evs : List (List Char × Int)) :
    (evs.foldl relayStep relayInit).forwarded ≤
      (evs.foldl relayStep relayInit).received ∧
    (evs.foldl relayStep relayInit).out =
      (evs.filter relayFwdOk).map Prod.fst ∧
    (∀ st ev, 0 < ev.1.length →
      (relayStep st ev).received = st.received + 1 ∧
      ((0 < ev.2 → (relayStep st ev).forwarded = st.forwarded + 1 ∧
                   (relayStep st ev).out = st.out ++ [ev.1]) ∧
       (ev.2 ≤ 0 → (relayStep st ev).forwarded = st.forwarded ∧
                   (relayStep st ev).out = st.out))) ∧
    (∀ st ev, ev.1.length = 0 → relayStep st ev = st) := by
  refine ⟨(relay_fold_spec relayInit evs (by simp [relayInit])).1,
          ?_, ?_, ?_⟩
  · have := (relay_fold_spec relayInit evs (by simp [relayInit])).2
    simpa [relayInit] using this
  · intro st ev h1
    unfold relayStep
    refine ⟨by simp [h1], ?_, ?_⟩
    · intro h2
      constructor <;> simp [h1, h2]
    · intro h2
      have h2' : ¬ 0 < ev.2 := Int.not_lt.mpr h2
      constructor <;> simp [h1, h2']
  · intro st ev h0
    unfold relayStep
    simp [h0]

/-- If `pat` occurs nowhere in `s`, `std::string::find` reports `npos`. -/
theorem findSub_eq_none_of_not_occurs (pat s : List Char)
    (h : ∀ i, occursAt pat s i = false) : findSub pat s = none := by
  induction s with
  | nil =>
    have h0 := h 0
    unfold occursAt at h0
    unfold findSub
    cases pat with
    | nil => simp [List.isPrefixOf] at h0
    | cons a t => simp
  | cons c rest ih =>
    have h0 := h 0
    unfold occursAt at h0
    simp only [List.drop_zero] at h0
    unfold findSub
    rw [h0, ih (fun i => h (i + 1))]
    simp

/-- Any missing tag makes the flat decoder take the warning branch. -/
theorem decodeFlat_eq_malformed (p : List Char)
    (h : findSub tagSENSOR p = none ∨ findSub tagCOMPANY p = none ∨
         findSub tagCO2 p = none ∨ findSub tagTIME p = none) :
    decodeFlat p = .malformed := by
  unfold decodeFlat
  cases hs : findSub tagSENSOR p <;> cases hc : findSub tagCOMPANY p <;>
    cases ho : findSub tagCO2 p <;> cases ht : findSub tagTIME p <;>
    simp_all

/-- Any missing tag makes the hierarchical decoder take the silent-drop
branch. -/
theorem decodeHier_eq_malformed (q : List Char)
    (h : findSub tagSENSOR q = none ∨ findSub tagZONE q = none ∨
         findSub tagCO2 q = none) :
    decodeHier q = .malformed := by
  unfold decodeHier
  cases hs : findSub tagSENSOR q <;> cases hz : findSub tagZONE q <;>
    cases ho : findSub tagCO2 q <;> simp_all

/-- A packet whose decode is not `ok` changes neither aggregate map. -/
theorem gatewayStep_aggregates_unchanged (st : GatewayState) (p : List Char)
    (h : ∀ r, decodeFlat p ≠ .ok r) :
    (gatewayStep st p).sums = st.sums ∧ (gatewayStep st p).counts = st.counts := by
  unfold gatewayStep
  by_cases hl : 0 < p.length
  · cases hd : decodeFlat p with
    | ok r => exact absurd hd (h r)
    | malformed => simp [hl, hd]
    | exn => simp [hl, hd]
  · simp [hl]

/-- As `gatewayStep_aggregates_unchanged`, hierarchical topology. -/
theorem hierGatewayStep_aggregates_unchanged (st : GatewayState) (q : List Char)
    (h : ∀ r, decodeHier q ≠ .ok r) :
    (hierGatewayStep st q).sums = st.sums ∧
      (hierGatewayStep st q).counts = st.counts := by
  unfold hierGatewayStep
  by_cases hl : 0 < q.length
  · cases hd : decodeHier q with
    | ok r => exact absurd hd (h r)
    | malformed => simp [hl, hd]
    | exn => simp [hl, hd]
  · simp [hl]

/-- **C2.** A payload in which some required tag does not occur (SENSOR:,
COMPANY:, CO2:, TIME: in the flat topology; SENSOR:, ZONE:, CO2: in the
hierarchical one) decodes deterministically to the malformed-packet branch,
and no aggregate record is created or updated for it. -/
theorem decode_missing_tag_malformed (p q : List Char) (st st' : GatewayState)
    (hp : (∀ i, occursAt tagSENSOR p i = false) ∨
          (∀ i, occursAt tagCOMPANY p i = false) ∨
          (∀ i, occursAt tagCO2 p i = false) ∨
          (∀ i, occursAt tagTIME p i = false))
    (hq : (∀ i, occursAt tagSENSOR q i = false) ∨
          (∀ i, occursAt tagZONE q i = false) ∨
          (∀ i, occursAt tagCO2 q i = false)) :
    decodeFlat p = .malformed ∧
    (gatewayStep st p).sums = st.sums ∧ (gatewayStep st p).counts = st.counts ∧
    decodeHier q = .malformed ∧
    (hierGatewayStep st' q).sums = st'.sums ∧
    (hierGatewayStep st' q).counts = st'.counts := by
  have hpf : decodeFlat p = .malformed := by
    apply decodeFlat_eq_malformed
    rcases hp with h | h | h | h
    · exact Or.inl (findSub_eq_none_of_not_occurs _ _ h)
    · exact Or.inr (Or.inl (findSub_eq_none_of_not_occurs _ _ h))
    · exact Or.inr (Or.inr (Or.inl (findSub_eq_none_of_not_occurs _ _ h)))
    · exact Or.inr (Or.inr (Or.inr (findSub_eq_none_of_not_occurs _ _ h)))
  have hqf : decodeHier q = .malformed := by
    apply decodeHier_eq_malformed
    rcases hq with h | h | h
    · exact Or.inl (findSub_eq_none_of_not_occurs _ _ h)
    · exact Or.inr (Or.inl (findSub_eq_none_of_not_occurs _ _ h))
    · exact Or.inr (Or.inr (findSub_eq_none_of_not_occurs _ _ h))
  have h1 := gatewayStep_aggregates_unchanged st p (by simp [hpf])
  have h2 := hierGatewayStep_aggregates_unchanged st' q (by simp [hqf])
  exact ⟨hpf, h1.1, h1.2, hqf, h2.1, h2.2⟩

/-- Occurrence checking is exhausted at the payload length, so "occurs
nowhere" follows from a bounded check for a nonempty pattern. -/
theorem not_occurs_of_bounded (pat s : List Char) (hne : pat ≠ [])
    (h : ∀ i < s.length, occursAt pat s i = false) :
    ∀ i, occursAt pat s i = false := by
  intro i
  by_cases hi : i < s.length
  · exact h i hi
  · unfold occursAt
    rw [List.drop_eq_nil_of_le (Nat.le_of_not_lt hi)]
    cases pat with
    | nil => exact absurd rfl hne
    | cons a t => simp [List.isPrefixOf]

/-- Witness for `decode_missing_tag_malformed`: a flat payload with no
TIME: tag and a hierarchical payload with no ZONE: tag. -/
theorem decode_missing_tag_malformed_witness :
    decodeFlat ("SENSOR:1,COMPANY:2,CO2:400".data) = .malformed ∧
    (gatewayStep gatewayInit ("SENSOR:1,COMPANY:2,CO2:400".data)).sums =
      gatewayInit.sums ∧
    (gatewayStep gatewayInit ("SENSOR:1,COMPANY:2,CO2:400".data)).counts =
      gatewayInit.counts ∧
    decodeHier ("SENSOR:1,CO2:400".data) = .malformed ∧
    (hierGatewayStep gatewayInit ("SENSOR:1,CO2:400".data)).sums =
      gatewayInit.sums ∧
    (hierGatewayStep gatewayInit ("SENSOR:1,CO2:400".data)).counts =
      gatewayInit.counts :=
  decode_missing_tag_malformed _ _ gatewayInit gatewayInit
    (Or.inr (Or.inr (Or.inr
      (not_occurs_of_bounded _ _ (by decide) (by decide)))))
    (Or.inr (Or.inl (not_occurs_of_bounded _ _ (by decide) (by decide))))

/-- **C3, counterexample.**  The payload `SENSOR:x,COMPANY:1,CO2:400,TIME:5`
has all four required tags, its SENSOR field fails numeric parsing — and the
decoder does *not* return the malformed-packet outcome: `std::stoi` raises
an uncaught `std::invalid_argument`, aborting the process. -/
theorem decode_parse_failure_cex :
    (findSub tagSENSOR ("SENSOR:x,COMPANY:1,CO2:400,TIME:5".data)).isSome = true ∧
    (findSub tagCOMPANY ("SENSOR:x,COMPANY:1,CO2:400,TIME:5".data)).isSome = true ∧
    (findSub tagCO2 ("SENSOR:x,COMPANY:1,CO2:400,TIME:5".data)).isSome = true ∧
    (findSub tagTIME ("SENSOR:x,COMPANY:1,CO2:400,TIME:5".data)).isSome = true ∧
    decodeFlat ("SENSOR:x,COMPANY:1,CO2:400,TIME:5".data) = .exn ∧
    decodeFlat ("SENSOR:x,COMPANY:1,CO2:400,TIME:5".data) ≠ .malformed := by
  decide

/-- With all four tags located, the flat decoder either succeeds or throws;
it never reaches the malformed-packet branch. -/
theorem decodeFlat_ne_malformed_of_found (p : List Char) (sp cp op tp : Nat)
    (hs : findSub tagSENSOR p = some sp) (hc : findSub tagCOMPANY p = some cp)
    (ho : findSub tagCO2 p = some op) (ht : findSub tagTIME p = some tp) :
    decodeFlat p ≠ .malformed := by
  unfold decodeFlat
  rw [hs, hc, ho, ht]
  dsimp only
  split <;> simp

/-- With all three tags located, the hierarchical decoder either succeeds
or throws. -/
theorem decodeHier_ne_malformed_of_found (q : List Char) (sp zp op : Nat)
    (hs : findSub tagSENSOR q = some sp) (hz : findSub tagZONE q = some zp)
    (ho : findSub tagCO2 q = some op) :
    decodeHier q ≠ .malformed := by
  unfold decodeHier
  rw [hs, hz, ho]
  dsimp only
  split <;> simp

/-- **C3, amended.**  The decoders return the malformed-packet outcome
*exactly when* a required tag is missing; when all tags are present, a
failed numeric parse instead escapes as an uncaught exception (`exn`),
aborting the process rather than being logged and skipped. -/
theorem decode_malformed_iff_tag_missing (p q : List Char) :
    (decodeFlat p = .malformed ↔
      (findSub tagSENSOR p = none ∨ findSub tagCOMPANY p = none ∨
       findSub tagCO2 p = none ∨ findSub tagTIME p = none)) ∧
    (decodeHier q = .malformed ↔
      (findSub tagSENSOR q = none ∨ findSub tagZONE q = none ∨
       findSub tagCO2 q = none)) := by
  constructor
  · constructor
    · intro h
      by_contra hc
      push_neg at hc
      obtain ⟨h1, h2, h3, h4⟩ := hc
      obtain ⟨sp, hs⟩ := Option.ne_none_iff_exists'.mp h1
      obtain ⟨cp, hcp⟩ := Option.ne_none_iff_exists'.mp h2
      obtain ⟨op, hop⟩ := Option.ne_none_iff_exists'.mp h3
      obtain ⟨tp, htp⟩ := Option.ne_none_iff_exists'.mp h4
      exact decodeFlat_ne_malformed_of_found p sp cp op tp hs hcp hop htp h
    · exact decodeFlat_eq_malformed p
  · constructor
    · intro h
      by_contra hc
      push_neg at hc
      obtain ⟨h1, h2, h3⟩ := hc
      obtain ⟨sp, hs⟩ := Option.ne_none_iff_exists'.mp h1
      obtain ⟨zp, hz⟩ := Option.ne_none_iff_exists'.mp h2
      obtain ⟨op, hop⟩ := Option.ne_none_iff_exists'.mp h3
      exact decodeHier_ne_malformed_of_found q sp zp op hs hz hop h
    · exact decodeHier_eq_malformed q

/-- `takeWhile` passes over a block all of whose characters satisfy the
predicate. -/
theorem takeWhile_append_of_all (p : Char → Bool) (a b : List Char)
    (h : ∀ x ∈ a, p x = true) : (a ++ b).takeWhile p = a ++ b.takeWhile p := by
  induction a with
  | nil => simp
  | cons c t ih =>
    have hc := h c (by simp)
    simp only [List.cons_append, List.takeWhile_cons, hc]
    rw [ih (fun x hx => h x (by simp [hx]))]
    simp

/-- Setting the cell just past a front block writes into the tail block. -/
theorem set_append_length (a b : List Char) (x : Char) :
    (a ++ b).set a.length x = a ++ b.set 0 x := by
  induction a with
  | nil => simp
  | cons c t ih =>
    simp only [List.cons_append, List.length_cons]
    rw [show (c :: (t ++ b)).set (t.length + 1) x
          = c :: (t ++ b).set t.length x from rfl, ih]

/-- **C10.** The decode path copies the payload into the fixed 1024-byte
stack buffer and writes a NUL terminator at index `packet->GetSize()`.  For
any packet smaller than 1024 bytes both writes are in bounds and the string
handed to the parser is exactly the payload (when the payload itself
carries no NUL byte); for any packet of 1024 bytes or more some write is
out of bounds and the decode is not safe (`none` = undefined behavior). -/
theorem buffer_nul_write_bounds (init payload : List Char)
    (hinit : init.length = bufferSize) :
    (payload.length < bufferSize →
       ∃ b, bufferPrepare init payload = some b ∧
         (nulChar ∉ payload →
            cstrOf b = payload ∧
            processCO2Data init payload = some (decodeFlat payload))) ∧
    (bufferSize ≤ payload.length →
       bufferPrepare init payload = none ∧
       processCO2Data init payload = none) := by
  constructor
  · intro hlt
    have hle : payload.length ≤ init.length := by rw [hinit]; omega
    have hmw : memWrite init payload
        = some (payload ++ init.drop payload.length) := by
      unfold memWrite
      rw [if_pos hle]
    have hlen2 : (payload ++ init.drop payload.length).length = init.length := by
      simp only [List.length_append, List.length_drop]
      omega
    have hdroplen : 0 < (init.drop payload.length).length := by
      simp only [List.length_drop]
      omega
    obtain ⟨c, tail, htail⟩ : ∃ c tail, init.drop payload.length = c :: tail := by
      cases hd : init.drop payload.length with
      | nil => rw [hd] at hdroplen; simp at hdroplen
      | cons c tail => exact ⟨c, tail, rfl⟩
    have hpoke : pokeAt (payload ++ init.drop payload.length) payload.length nulChar
        = some ((payload ++ init.drop payload.length).set payload.length nulChar) := by
      unfold pokeAt
      rw [if_pos]
      rw [hlen2, hinit]
      exact hlt
    have hset : (payload ++ init.drop payload.length).set payload.length nulChar
        = payload ++ nulChar :: tail := by
      rw [set_append_length, htail]
      rfl
    have hprep : bufferPrepare init payload = some (payload ++ nulChar :: tail) := by
      unfold bufferPrepare
      rw [hmw]
      dsimp only [Option.bind]
      rw [hpoke, hset]
    refine ⟨payload ++ nulChar :: tail, hprep, ?_⟩
    intro hnul
    have hcstr : cstrOf (payload ++ nulChar :: tail) = payload := by
      unfold cstrOf
      rw [takeWhile_append_of_all _ _ _ ?all]
      case all =>
        intro x hx
        simp only [bne_iff_ne, ne_eq, decide_eq_true_eq]
        exact fun he => hnul (he ▸ hx)
      have hhd : ((nulChar :: tail).takeWhile (fun c => c != nulChar)) = [] := by
        simp [List.takeWhile_cons]
      rw [hhd, List.append_nil]
    refine ⟨hcstr, ?_⟩
    unfold processCO2Data
    rw [hprep]
    dsimp only [Option.map]
    rw [hcstr]
  · intro hge
    have hdrop : init.drop payload.length = [] :=
      List.drop_eq_nil_of_le (by omega)
    by_cases hle : payload.length ≤ init.length
    · have hprep : bufferPrepare init payload = none := by
        unfold bufferPrepare memWrite
        rw [if_pos hle]
        dsimp only [Option.bind]
        unfold pokeAt
        rw [if_neg]
        rw [hdrop]
        simp
      constructor
      · exact hprep
      · unfold processCO2Data
        rw [hprep]
        rfl
    · have hprep : bufferPrepare init payload = none := by
        unfold bufferPrepare memWrite
        rw [if_neg hle]
        rfl
      constructor
      · exact hprep
      · unfold processCO2Data
        rw [hprep]
        rfl

/-- Witness for `buffer_nul_write_bounds`: a 33-byte payload is processed in
bounds in a 1024-byte buffer; a 1024-byte payload is rejected as unsafe. -/
theorem buffer_nul_write_bounds_witness :
    (∃ b, bufferPrepare (List.replicate 1024 'x')
            ("SENSOR:9,COMPANY:1,CO2:400,TIME:5".data) = some b ∧
       (nulChar ∉ ("SENSOR:9,COMPANY:1,CO2:400,TIME:5".data) →
          cstrOf b = "SENSOR:9,COMPANY:1,CO2:400,TIME:5".data ∧
          processCO2Data (List.replicate 1024 'x')
              ("SENSOR:9,COMPANY:1,CO2:400,TIME:5".data)
            = some (decodeFlat ("SENSOR:9,COMPANY:1,CO2:400,TIME:5".data)))) ∧
    bufferPrepare (List.replicate 1024 'x') (List.replicate 1024 'a') = none :=
  ⟨(buffer_nul_write_bounds (List.replicate 1024 'x') _
      (by simp only [List.length_replicate]; decide)).1 (by decide),
   ((buffer_nul_write_bounds (List.replicate 1024 'x') (List.replicate 1024 'a')
      (by simp only [List.length_replicate]; decide)).2
      (by simp only [List.length_replicate]; decide)).1⟩

/-- **C9.** While the sensor is running, the firing of the scheduled
emission event unconditionally (whatever the send result) schedules the
next emission at `now + m_interval`; `StopApplication` clears the running
flag and cancels the pending event, is idempotent, and from the stopped
state no sequence of scheduler events (event firings with any send results,
or further stops) ever produces another emission or changes the state. -/
theorem sensor_schedule_spec (st : SensorSched) (t : ℚ) (a : Int)
    (evs : List SensorEv) :
    (st.running = true → st.pending = some t →
       (fireStep a st).1.pending = some (t + sensorInterval) ∧
       (fireStep a st).2 = true) ∧
    stopStep (stopStep st) = stopStep st ∧
    (runSensor (stopStep st) evs).2 = 0 ∧
    (runSensor (stopStep st) evs).1 = stopStep st := by
  have key : ∀ (l : List SensorEv) (s : SensorSched), s.running = false →
      s.pending = none → runSensor s l = (s, 0) := by
    intro l
    induction l with
    | nil => intro s h1 h2; rfl
    | cons ev rest ih =>
      intro s h1 h2
      cases ev with
      | fire a' =>
        show runSensor _ _ = _
        unfold runSensor sensorEvStep fireStep
        rw [h2]
        dsimp only
        rw [ih s h1 h2]
        simp
      | stop =>
        have hss : stopStep s = s := by
          cases s with
          | mk r pe ts => simp only [stopStep]; rw [← h1, ← h2]
        show runSensor _ _ = _
        unfold runSensor sensorEvStep
        dsimp only
        rw [hss, ih s h1 h2]
        simp
  refine ⟨?_, rfl, ?_, ?_⟩
  · intro hr hp
    unfold fireStep
    rw [hp]
    simp [hr]
  · rw [key evs (stopStep st) rfl rfl]
  · rw [key evs (stopStep st) rfl rfl]

/-- Witness for `sensor_schedule_spec` on a running sensor with an emission
pending at time 0 and a post-stop trace of one firing attempt and one
repeated stop. -/
theorem sensor_schedule_spec_witness :
    ((fireStep 1 ⟨true, some 0, 0⟩).1.pending = some (0 + sensorInterval) ∧
     (fireStep 1 ⟨true, some 0, 0⟩).2 = true) ∧
    stopStep (stopStep ⟨true, some 0, 0⟩) = stopStep ⟨true, some 0, 0⟩ ∧
    (runSensor (stopStep ⟨true, some 0, 0⟩)
       [SensorEv.fire 1, SensorEv.stop]).2 = 0 :=
  ⟨(sensor_schedule_spec ⟨true, some 0, 0⟩ 0 1 []).1 rfl rfl,
   (sensor_schedule_spec ⟨true, some 0, 0⟩ 0 1 []).2.1,
   (sensor_schedule_spec ⟨true, some 0, 0⟩ 0 1
      [SensorEv.fire 1, SensorEv.stop]).2.2.1⟩

/-! Association-list lemmas for the two `std::map` updates. -/

/-- `totalCO2BySensor[k] += v` seen through a lookup at `k`. -/
theorem mapAddQ_lookup_self (m : List (Nat × ℚ)) (k : Nat) (v : ℚ) :
    (mapAddQ m k v).lookup k = some ((m.lookup k).getD 0 + v) := by
  induction m with
  | nil => simp [mapAddQ, List.lookup]
  | cons e rest ih =>
    obtain ⟨k', x⟩ := e
    by_cases h : k' = k
    · subst h
      simp [mapAddQ, List.lookup]
    · have hb : (k == k') = false := by
        simp [Ne.symm h]
      simp only [mapAddQ, if_neg h, List.lookup, hb]
      exact ih

/-- `totalCO2BySensor[k] += v` leaves every other key unchanged. -/
theorem mapAddQ_lookup_ne (m : List (Nat × ℚ)) (k : Nat) (v : ℚ) (k' : Nat)
    (h : k' ≠ k) : (mapAddQ m k v).lookup k' = m.lookup k' := by
  have hb0 : (k' == k) = false := by simp [h]
  induction m with
  | nil => simp [mapAddQ, List.lookup, hb0]
  | cons e rest ih =>
    obtain ⟨k0, x⟩ := e
    by_cases h0 : k0 = k
    · subst h0
      have hb : (k' == k0) = false := by simp [h]
      simp [mapAddQ, List.lookup, hb]
    · simp only [mapAddQ, if_neg h0, List.lookup]
      cases hb : k' == k0 <;> simp [ih]

/-- `packetCountBySensor[k]++` seen through a lookup at `k`. -/
theorem mapIncr_lookup_self (m : List (Nat × Nat)) (k : Nat) :
    (mapIncr m k).lookup k = some ((m.lookup k).getD 0 + 1) := by
  induction m with
  | nil => simp [mapIncr, List.lookup]
  | cons e rest ih =>
    obtain ⟨k', x⟩ := e
    by_cases h : k' = k
    · subst h
      simp [mapIncr, List.lookup]
    · have hb : (k == k') = false := by
        simp [Ne.symm h]
      simp only [mapIncr, if_neg h, List.lookup, hb]
      exact ih

/-- `packetCountBySensor[k]++` leaves every other key unchanged. -/
theorem mapIncr_lookup_ne (m : List (Nat × Nat)) (k : Nat) (k' : Nat)
    (h : k' ≠ k) : (mapIncr m k).lookup k' = m.lookup k' := by
  have hb0 : (k' == k) = false := by simp [h]
  induction m with
  | nil => simp [mapIncr, List.lookup, hb0]
  | cons e rest ih =>
    obtain ⟨k0, x⟩ := e
    by_cases h0 : k0 = k
    · subst h0
      have hb : (k' == k0) = false := by simp [h]
      simp [mapIncr, List.lookup, hb]
    · simp only [mapIncr, if_neg h0, List.lookup]
      cases hb : k' == k0 <;> simp [ih]

/-- A successfully decoded nonempty packet performs exactly the two map
updates and the receive count. -/
theorem gatewayStep_ok (st : GatewayState) (p : List Char) (r : FlatReading)
    (hl : 0 < p.length) (hd : decodeFlat p = .ok r) :
    gatewayStep st p =
      ⟨st.totalReceived + 1, mapAddQ st.sums r.sensorId r.co2.val,
       mapIncr st.counts r.sensorId⟩ := by
  unfold gatewayStep
  rw [if_pos hl, hd]

/-- Each arrival bumps `totalPacketsReceived` by one exactly when the packet
is nonempty, whatever the decode outcome. -/
theorem gatewayStep_totalReceived (st : GatewayState) (p : List Char) :
    (gatewayStep st p).totalReceived =
      st.totalReceived + (if 0 < p.length then 1 else 0) := by
  unfold gatewayStep
  by_cases hl : 0 < p.length
  · cases hd : decodeFlat p <;> simp [hl, hd]
  · simp [hl]

/-- Over a whole arrival trace, `totalPacketsReceived` counts the nonempty
packets. -/
theorem gatewayFold_totalReceived (ps : List (List Char)) (st : GatewayState) :
    (ps.foldl gatewayStep st).totalReceived =
      st.totalReceived + ps.countP (fun q => decide (0 < q.length)) := by
  induction ps generalizing st with
  | nil => simp
  | cons p rest ih =>
    rw [List.foldl_cons, ih, gatewayStep_totalReceived, List.countP_cons]
    by_cases hl : 0 < p.length
    · simp [hl]
      omega
    · simp [hl]

/-- One step preserves "every aggregate entry has count at least 1". -/
theorem gatewayStep_count_pos (st : GatewayState) (p : List Char)
    (hst : ∀ k, present st k = true → 1 ≤ countOf st k) :
    ∀ k, present (gatewayStep st p) k = true →
      1 ≤ countOf (gatewayStep st p) k := by
  intro k
  by_cases hl : 0 < p.length
  · cases hd : decodeFlat p with
    | ok r =>
      rw [gatewayStep_ok st p r hl hd]
      by_cases hk : k = r.sensorId
      · subst hk
        intro _
        unfold countOf
        simp only [mapIncr_lookup_self]
        simp
      · unfold present countOf
        simp only [mapIncr_lookup_ne st.counts r.sensorId k hk]
        exact hst k
    | malformed =>
      have : gatewayStep st p = { st with totalReceived := st.totalReceived + 1 } := by
        unfold gatewayStep
        rw [if_pos hl, hd]
      rw [this]
      exact hst k
    | exn =>
      have : gatewayStep st p = { st with totalReceived := st.totalReceived + 1 } := by
        unfold gatewayStep
        rw [if_pos hl, hd]
      rw [this]
      exact hst k
  · have : gatewayStep st p = st := by
      unfold gatewayStep
      rw [if_neg hl]
    rw [this]
    exact hst k

/-- The count invariant holds along every trace from program start. -/
theorem gatewayFold_count_pos (ps : List (List Char)) (st : GatewayState)
    (hst : ∀ k, present st k = true → 1 ≤ countOf st k) :
    ∀ k, present (ps.foldl gatewayStep st) k = true →
      1 ≤ countOf (ps.foldl gatewayStep st) k := by
  induction ps generalizing st with
  | nil => exact hst
  | cons p rest ih =>
    rw [List.foldl_cons]
    exact ih _ (gatewayStep_count_pos st p hst)

/-- **C6.** Collector state invariant: a nonempty packet arrival increments
`totalPacketsReceived` exactly once, before and regardless of the decode
outcome (over a whole trace the counter counts the nonempty arrivals); on a
successful decode the entry for the packet's sensorId is created lazily and
updated by `sumCO2 += co2Value; count += 1`; per-sensor counts never
decrease, and sums never decrease as long as decoded values are nonnegative
(generated readings are clamped to at least 300); every sensorId present in
the aggregate map has count at least 1 in every reachable state; and a
packet that fails decode contributes to `totalPacketsReceived` but changes
no aggregate entry. -/
theorem collector_invariant (ps : List (List Char)) (st : GatewayState)
    (p : List Char) (k : Nat) (r : FlatReading) :
    ((ps.foldl gatewayStep st).totalReceived
       = st.totalReceived + ps.countP (fun q => decide (0 < q.length))) ∧
    (0 < p.length →
       (gatewayStep st p).totalReceived = st.totalReceived + 1) ∧
    (0 < p.length → decodeFlat p = .ok r →
       sumOf (gatewayStep st p) r.sensorId = sumOf st r.sensorId + r.co2.val ∧
       countOf (gatewayStep st p) r.sensorId = countOf st r.sensorId + 1 ∧
       present (gatewayStep st p) r.sensorId = true) ∧
    (countOf st k ≤ countOf (gatewayStep st p) k) ∧
    ((∀ q, decodeFlat p = .ok q → 0 ≤ q.co2.val) →
       sumOf st k ≤ sumOf (gatewayStep st p) k) ∧
    ((decodeFlat p = .malformed ∨ decodeFlat p = .exn) →
       (gatewayStep st p).sums = st.sums ∧
       (gatewayStep st p).counts = st.counts) ∧
    (present (ps.foldl gatewayStep gatewayInit) k = true →
       1 ≤ countOf (ps.foldl gatewayStep gatewayInit) k) := by
  refine ⟨gatewayFold_totalReceived ps st, ?_, ?_, ?_, ?_, ?_, ?_⟩
  · intro hl
    rw [gatewayStep_totalReceived, if_pos hl]
  · intro hl hd
    rw [gatewayStep_ok st p r hl hd]
    unfold sumOf countOf present
    simp only [mapAddQ_lookup_self, mapIncr_lookup_self]
    simp
  · by_cases hl : 0 < p.length
    · cases hd : decodeFlat p with
      | ok q =>
        rw [gatewayStep_ok st p q hl hd]
        unfold countOf
        by_cases hk : k = q.sensorId
        · subst hk
          simp only [mapIncr_lookup_self]
          simp
        · simp only [mapIncr_lookup_ne st.counts q.sensorId k hk]
          exact le_refl _
      | malformed =>
        have h : gatewayStep st p = { st with totalReceived := st.totalReceived + 1 } := by
          unfold gatewayStep
          rw [if_pos hl, hd]
        rw [h]
        exact le_rfl
      | exn =>
        have h : gatewayStep st p = { st with totalReceived := st.totalReceived + 1 } := by
          unfold gatewayStep
          rw [if_pos hl, hd]
        rw [h]
        exact le_rfl
    · have h : gatewayStep st p = st := by
        unfold gatewayStep
        rw [if_neg hl]
      rw [h]
  · intro hnn
    by_cases hl : 0 < p.length
    · cases hd : decodeFlat p with
      | ok q =>
        rw [gatewayStep_ok st p q hl hd]
        unfold sumOf
        by_cases hk : k = q.sensorId
        · subst hk
          simp only [mapAddQ_lookup_self]
          have := hnn q hd
          simp
          linarith
        · simp only [mapAddQ_lookup_ne st.sums q.sensorId q.co2.val k hk]
          exact le_refl _
      | malformed =>
        have h : gatewayStep st p = { st with totalReceived := st.totalReceived + 1 } := by
          unfold gatewayStep
          rw [if_pos hl, hd]
        rw [h]
        exact le_rfl
      | exn =>
        have h : gatewayStep st p = { st with totalReceived := st.totalReceived + 1 } := by
          unfold gatewayStep
          rw [if_pos hl, hd]
        rw [h]
        exact le_rfl
    · have h : gatewayStep st p = st := by
        unfold gatewayStep
        rw [if_neg hl]
      rw [h]
  · intro hfail
    apply gatewayStep_aggregates_unchanged
    intro q hq
    rcases hfail with h | h <;> rw [h] at hq <;> exact DecodeOutcome.noConfusion hq
  · apply gatewayFold_count_pos
    intro k0 hk0
    simp [present, gatewayInit, List.lookup] at hk0

/-- Witness for `collector_invariant`: the packet
`SENSOR:1,COMPANY:2,CO2:400,TIME:7` decodes successfully and feeds the
aggregate of sensor 1; the packet `junk` fails decode and leaves the maps
untouched. -/
theorem collector_invariant_witness :
    ((gatewayStep gatewayInit ("SENSOR:1,COMPANY:2,CO2:400,TIME:7".data)).totalReceived
       = gatewayInit.totalReceived + 1) ∧
    (sumOf (gatewayStep gatewayInit ("SENSOR:1,COMPANY:2,CO2:400,TIME:7".data)) 1
       = sumOf gatewayInit 1 +
         (⟨1, 2, ⟨"400".data, 400⟩, 7⟩ : FlatReading).co2.val ∧
     countOf (gatewayStep gatewayInit ("SENSOR:1,COMPANY:2,CO2:400,TIME:7".data)) 1
       = countOf gatewayInit 1 + 1 ∧
     present (gatewayStep gatewayInit ("SENSOR:1,COMPANY:2,CO2:400,TIME:7".data)) 1
       = true) ∧
    (sumOf gatewayInit 1
       ≤ sumOf (gatewayStep gatewayInit ("SENSOR:1,COMPANY:2,CO2:400,TIME:7".data)) 1) ∧
    ((gatewayStep gatewayInit ("junk".data)).sums = gatewayInit.sums ∧
     (gatewayStep gatewayInit ("junk".data)).counts = gatewayInit.counts) := by
  have hd : decodeFlat ("SENSOR:1,COMPANY:2,CO2:400,TIME:7".data)
      = .ok ⟨1, 2, ⟨"400".data, 400⟩, 7⟩ := by with_unfolding_all rfl
  have H := collector_invariant [] gatewayInit
    ("SENSOR:1,COMPANY:2,CO2:400,TIME:7".data) 1 ⟨1, 2, ⟨"400".data, 400⟩, 7⟩
  have H2 := collector_invariant [] gatewayInit ("junk".data) 1
    ⟨1, 2, ⟨"400".data, 400⟩, 7⟩
  refine ⟨H.2.1 (by decide), ?_, ?_, ?_⟩
  · have h3 := H.2.2.1 (by decide) hd
    exact h3
  · apply H.2.2.2.2.1
    intro q hq
    rw [hd] at hq
    injection hq with h
    subst h
    norm_num
  · exact H2.2.2.2.2.2.1 (Or.inl (by decide))

end CarbonSensors

namespace CarbonSensors

/-! ## Toward the round-trip law: decimal rendering lemmas -/

/-- The fuel argument of `natDigitsAux` is irrelevant once sufficient. -/
theorem natDigitsAux_congr (n : Nat) : ∀ f1 f2, n ≤ f1 → n ≤ f2 →
    natDigitsAux (f1 + 1) n = natDigitsAux (f2 + 1) n := by
  induction n using Nat.strong_induction_on with
  | _ n ih =>
    intro f1 f2 h1 h2
    unfold natDigitsAux
    by_cases h10 : n < 10
    · simp [h10]
    · simp only [if_neg h10]
      obtain ⟨g1, rfl⟩ : ∃ g1, f1 = g1 + 1 := ⟨f1 - 1, by omega⟩
      obtain ⟨g2, rfl⟩ : ∃ g2, f2 = g2 + 1 := ⟨f2 - 1, by omega⟩
      rw [ih (n / 10) (by omega) g1 g2 (by omega) (by omega)]

/-- Recursion equation for `natDigits`. -/
theorem natDigits_eq (n : Nat) :
    natDigits n =
      if n < 10 then [digitChar n]
      else natDigits (n / 10) ++ [digitChar (n % 10)] := by
  have step : natDigitsAux (n + 1) n
      = if n < 10 then [digitChar n]
        else natDigitsAux n (n / 10) ++ [digitChar (n % 10)] := rfl
  unfold natDigits
  rw [step]
  by_cases h10 : n < 10
  · simp [h10]
  · rw [if_neg h10, if_neg h10]
    obtain ⟨g, rfl⟩ : ∃ g, n = g + 1 := ⟨n - 1, by omega⟩
    rw [natDigitsAux_congr ((g + 1) / 10) g ((g + 1) / 10) (by omega) (le_refl _)]

theorem natDigits_ne_nil (n : Nat) : natDigits n ≠ [] := by
  rw [natDigits_eq]
  by_cases h10 : n < 10
  · simp [h10]
  · simp [h10]

/-- Every character that `operator<<` prints for an unsigned integer is a
decimal digit. -/
theorem natDigits_chars (n : Nat) :
    ∀ c ∈ natDigits n, ∃ d, d < 10 ∧ c = digitChar d := by
  induction n using Nat.strong_induction_on with
  | _ n ih =>
    rw [natDigits_eq]
    by_cases h10 : n < 10
    · simp only [if_pos h10]
      intro c hc
      simp at hc
      exact ⟨n, h10, hc⟩
    · simp only [if_neg h10]
      intro c hc
      rcases List.mem_append.mp hc with h | h
      · exact ih (n / 10) (by omega) c h
      · simp at h
        exact ⟨n % 10, by omega, h⟩

theorem digitChar_toNat (d : Nat) (h : d < 10) : (digitChar d).toNat = 48 + d := by
  interval_cases d <;> decide

theorem digitChar_isDigit (d : Nat) (h : d < 10) : (digitChar d).isDigit = true := by
  interval_cases d <;> decide

theorem digitChar_not_isCSpace (d : Nat) (h : d < 10) :
    isCSpace (digitChar d) = false := by
  interval_cases d <;> decide

theorem digitsVal_append_singleton (l : List Char) (c : Char) :
    digitsVal (l ++ [c]) = digitsVal l * 10 + (c.toNat - 48) := by
  unfold digitsVal
  rw [List.foldl_append]
  rfl

/-- Re-reading the printed decimal digits recovers the value. -/
theorem digitsVal_natDigits (n : Nat) : digitsVal (natDigits n) = n := by
  induction n using Nat.strong_induction_on with
  | _ n ih =>
    rw [natDigits_eq]
    by_cases h10 : n < 10
    · simp only [if_pos h10]
      unfold digitsVal
      simp [digitChar_toNat n h10]
    · simp only [if_neg h10]
      rw [digitsVal_append_singleton, ih (n / 10) (by omega),
          digitChar_toNat (n % 10) (by omega)]
      omega

/-! ## Parser lemmas on pure digit strings -/

theorem takeWhile_eq_self_of_all (p : Char → Bool) (l : List Char)
    (h : ∀ c ∈ l, p c = true) : l.takeWhile p = l := by
  induction l with
  | nil => rfl
  | cons c t ih =>
    rw [List.takeWhile_cons, h c (by simp)]
    simp only [if_true]
    rw [ih (fun x hx => h x (by simp [hx]))]

theorem dropWhile_eq_nil_of_all (p : Char → Bool) (l : List Char)
    (h : ∀ c ∈ l, p c = true) : l.dropWhile p = [] := by
  induction l with
  | nil => rfl
  | cons c t ih =>
    rw [List.dropWhile_cons, h c (by simp)]
    simp only [if_true]
    exact ih (fun x hx => h x (by simp [hx]))

/-- The fall-through case of the sign test. -/
theorem signSplit_no_sign (c : Char) (t : List Char)
    (h1 : c ≠ '+') (h2 : c ≠ '-') : signSplit (c :: t) = (false, [], c :: t) := by
  unfold signSplit
  split
  · next heq => rw [List.cons.injEq] at heq; exact absurd heq.1 h1
  · next heq => rw [List.cons.injEq] at heq; exact absurd heq.1 h2
  · rfl

/-- `std::stoi` on a plain digit string within `int` range. -/
theorem cppStoi_digits (l : List Char) (hne : l ≠ [])
    (hdig : ∀ c ∈ l, ∃ d, d < 10 ∧ c = digitChar d)
    (hrange : (digitsVal l : Int) ≤ intMax) :
    cppStoi l = some ((digitsVal l : Nat) : Int) := by
  obtain ⟨c0, t, rfl⟩ : ∃ c0 t, l = c0 :: t := by
    cases l with
    | nil => exact absurd rfl hne
    | cons c0 t => exact ⟨c0, t, rfl⟩
  obtain ⟨d0, hd0, rfl⟩ := hdig c0 (by simp)
  have hdrop : (digitChar d0 :: t).dropWhile isCSpace = digitChar d0 :: t := by
    rw [List.dropWhile_cons, digitChar_not_isCSpace d0 hd0]
    simp
  have hsign : signSplit (digitChar d0 :: t) = (false, [], digitChar d0 :: t) := by
    apply signSplit_no_sign
    · interval_cases d0 <;> decide
    · interval_cases d0 <;> decide
  have htake : (digitChar d0 :: t).takeWhile Char.isDigit = digitChar d0 :: t := by
    apply takeWhile_eq_self_of_all
    intro c hc
    obtain ⟨d, hd, rfl⟩ := hdig c hc
    exact digitChar_isDigit d hd
  unfold cppStoi
  rw [hdrop, hsign]
  simp only [htake]
  rw [if_neg (by simp)]
  simp only [show ∀ a b : Int, (if false = true then a else b) = b from
    fun a b => rfl]
  rw [if_neg]
  push_neg
  refine ⟨?_, hrange⟩
  unfold intMin
  omega

/-- `std::stoull` on a plain digit string below 2^64. -/
theorem cppStoull_digits (l : List Char) (hne : l ≠ [])
    (hdig : ∀ c ∈ l, ∃ d, d < 10 ∧ c = digitChar d)
    (hrange : digitsVal l < uint64Size) :
    cppStoull l = some (digitsVal l) := by
  obtain ⟨c0, t, rfl⟩ : ∃ c0 t, l = c0 :: t := by
    cases l with
    | nil => exact absurd rfl hne
    | cons c0 t => exact ⟨c0, t, rfl⟩
  obtain ⟨d0, hd0, rfl⟩ := hdig c0 (by simp)
  have hdrop : (digitChar d0 :: t).dropWhile isCSpace = digitChar d0 :: t := by
    rw [List.dropWhile_cons, digitChar_not_isCSpace d0 hd0]
    simp
  have hsign : signSplit (digitChar d0 :: t) = (false, [], digitChar d0 :: t) := by
    apply signSplit_no_sign
    · interval_cases d0 <;> decide
    · interval_cases d0 <;> decide
  have htake : (digitChar d0 :: t).takeWhile Char.isDigit = digitChar d0 :: t := by
    apply takeWhile_eq_self_of_all
    intro c hc
    obtain ⟨d, hd, rfl⟩ := hdig c hc
    exact digitChar_isDigit d hd
  unfold cppStoull
  rw [hdrop, hsign]
  simp only [htake]
  rw [if_neg (by simp), if_neg (not_le.mpr hrange)]
  simp

/-- The `int → uint32_t` conversion is the identity on small nonnegative
values. -/
theorem toU32_coe (n : Nat) (h : n < 2 ^ 32) : toU32 ((n : Nat) : Int) = n := by
  unfold toU32
  rw [Int.emod_eq_of_lt (Int.ofNat_nonneg n) (by exact_mod_cast h)]
  exact Int.toNat_natCast n

end CarbonSensors

namespace CarbonSensors

/-! ## `std::string::find` machinery -/

/-- `findSub` finds the first occurrence. -/
theorem findSub_eq_some (pat s : List Char) (n : Nat)
    (hocc : occursAt pat s n = true)
    (hbefore : ∀ i < n, occursAt pat s i = false) :
    findSub pat s = some n := by
  induction s generalizing n with
  | nil =>
    unfold occursAt at hocc
    rw [List.drop_nil] at hocc
    cases pat with
    | nil =>
      unfold findSub
      cases n with
      | zero => simp
      | succ m =>
        have h0 := hbefore 0 (by omega)
        unfold occursAt at h0
        simp [List.isPrefixOf] at h0
    | cons a t => simp [List.isPrefixOf] at hocc
  | cons c rest ih =>
    unfold findSub
    cases n with
    | zero =>
      unfold occursAt at hocc
      rw [List.drop_zero] at hocc
      rw [hocc]
      simp
    | succ m =>
      have h0 := hbefore 0 (by omega)
      unfold occursAt at h0
      rw [List.drop_zero] at h0
      rw [h0]
      rw [ih m hocc (fun i hi => hbefore (i + 1) (by omega))]
      rfl

/-- A pattern occurs right after a block it is appended to. -/
theorem occursAt_append_self (pat u w : List Char) :
    occursAt pat (u ++ (pat ++ w)) u.length = true := by
  unfold occursAt
  rw [List.drop_left]
  rw [List.isPrefixOf_iff_prefix]
  exact List.prefix_append pat w

/-- An occurrence pins each pattern character in the payload. -/
theorem occursAt_char (pat s : List Char) (i k : Nat) (h : occursAt pat s i = true)
    (hk : k < pat.length) : s[i + k]? = pat[k]? := by
  unfold occursAt at h
  rw [List.isPrefixOf_iff_prefix] at h
  obtain ⟨t, ht⟩ := h
  have : s[i + k]? = (s.drop i)[k]? := by
    rw [List.getElem?_drop]
  rw [this, ← ht]
  rw [List.getElem?_append_left hk]

/-- No occurrence of a pattern can start where its head character is
absent. -/
theorem not_occursAt_of_head_ne (c : Char) (pat' s : List Char) (i : Nat)
    (h : s[i]? ≠ some c) : occursAt (c :: pat') s i = false := by
  by_contra hc
  rw [Bool.not_eq_false] at hc
  have := occursAt_char (c :: pat') s i 0 hc (by simp)
  simp at this
  exact h this

/-- Inside a block that lacks the head character, a pattern starting with
that character occurs nowhere. -/
theorem not_occursAt_in_front (c : Char) (pat' u v : List Char)
    (hc : c ∉ u) : ∀ i < u.length, occursAt (c :: pat') (u ++ v) i = false := by
  intro i hi
  apply not_occursAt_of_head_ne
  rw [List.getElem?_append_left hi]
  intro hsome
  rw [List.getElem?_eq_some] at hsome
  obtain ⟨hlt, rfl⟩ := hsome
  exact hc (List.getElem_mem hlt)

end CarbonSensors

namespace CarbonSensors

/-! ## Character classes of the pieces of a payload -/

/-- Characters outside the digit class never appear in a printed integer. -/
theorem not_mem_natDigits (n : Nat) (ch : Char) (hch : ch.isDigit = false) :
    ch ∉ natDigits n := by
  intro hmem
  obtain ⟨d, hd, heq⟩ := natDigits_chars n ch hmem
  subst heq
  rw [digitChar_isDigit d hd] at hch
  exact Bool.noConfusion hch

/-- The sign text produced by `signSplit` holds only sign characters. -/
theorem signSplit_sign_chars (s : List Char) :
    ∀ c ∈ (signSplit s).2.1, c = '+' ∨ c = '-' := by
  unfold signSplit
  split <;> simp

/-- The mantissa text accepted by `strtod` holds only digits and a dot. -/
theorem parseMant_chars (s : List Char) (m : ℚ) (mtxt r : List Char)
    (h : parseMant s = some (m, mtxt, r)) :
    ∀ c ∈ mtxt, c = '.' ∨ c.isDigit = true := by
  unfold parseMant at h
  split at h
  · split at h
    · exact absurd h (by simp)
    · rw [Option.some.injEq, Prod.mk.injEq, Prod.mk.injEq] at h
      obtain ⟨-, h2, -⟩ := h
      subst h2
      intro c hc
      rcases List.mem_append.mp hc with h | h
      · exact Or.inr (List.mem_takeWhile_imp h)
      · rcases List.mem_cons.mp h with h | h
        · exact Or.inl h
        · exact Or.inr (List.mem_takeWhile_imp h)
  · split at h
    · exact absurd h (by simp)
    · rw [Option.some.injEq, Prod.mk.injEq, Prod.mk.injEq] at h
      obtain ⟨-, h2, -⟩ := h
      subst h2
      intro c hc
      exact Or.inr (List.mem_takeWhile_imp hc)

/-- The exponent text accepted by `strtod` holds only `e`/`E`, a sign and
digits. -/
theorem parseExp_chars (s : List Char) :
    ∀ c ∈ (parseExp s).2.1,
      c = 'e' ∨ c = 'E' ∨ c = '+' ∨ c = '-' ∨ c.isDigit = true := by
  unfold parseExp
  split
  · next c0 rest =>
    split
    · next hc0 =>
      have hsign : ∀ c, c ∈ ([] : List Char) ∨ c = '+' ∨ c = '-' → True := by
        simp
      split
      · split
        · simp
        · intro c hc
          rcases List.mem_cons.mp hc with h | h
          · subst h
            rcases hc0 with h | h
            · exact Or.inl h
            · exact Or.inr (Or.inl h)
          · rcases List.mem_cons.mp h with h | h
            · exact Or.inr (Or.inr (Or.inl h))
            · exact Or.inr (Or.inr (Or.inr (Or.inr (List.mem_takeWhile_imp h))))
      · split
        · simp
        · intro c hc
          rcases List.mem_cons.mp hc with h | h
          · subst h
            rcases hc0 with h | h
            · exact Or.inl h
            · exact Or.inr (Or.inl h)
          · rcases List.mem_cons.mp h with h | h
            · exact Or.inr (Or.inr (Or.inr (Or.inl h)))
            · exact Or.inr (Or.inr (Or.inr (Or.inr (List.mem_takeWhile_imp h))))
      · split
        · simp
        · intro c hc
          rcases List.mem_cons.mp hc with h | h
          · subst h
            rcases hc0 with h | h
            · exact Or.inl h
            · exact Or.inr (Or.inl h)
          · exact Or.inr (Or.inr (Or.inr (Or.inr (List.mem_takeWhile_imp h))))
    · simp
  · simp

/-- Every character of a consumed `strtod` literal is whitespace, a sign,
a dot, an exponent marker, or a digit. -/
theorem stodParse_chars (s : List Char) (fv : FloatVal) (rest : List Char)
    (h : stodParse s = some (fv, rest)) :
    ∀ c ∈ fv.text,
      isCSpace c = true ∨ c = '+' ∨ c = '-' ∨ c = '.' ∨
      c = 'e' ∨ c = 'E' ∨ c.isDigit = true := by
  unfold stodParse at h
  dsimp only at h
  split at h
  · exact absurd h (by simp)
  · next m mtxt r1 heq =>
    rw [Option.some.injEq, Prod.mk.injEq] at h
    obtain ⟨h1, -⟩ := h
    have htxt : fv.text
        = s.takeWhile isCSpace ++ (signSplit (s.dropWhile isCSpace)).2.1
            ++ mtxt ++ (parseExp r1).2.1 := by
      rw [← h1]
    rw [htxt]
    intro c hc
    rcases List.mem_append.mp hc with hc | hc
    · rcases List.mem_append.mp hc with hc | hc
      · rcases List.mem_append.mp hc with hc | hc
        · exact Or.inl (List.mem_takeWhile_imp hc)
        · rcases signSplit_sign_chars _ c hc with h | h
          · exact Or.inr (Or.inl h)
          · exact Or.inr (Or.inr (Or.inl h))
      · rcases parseMant_chars _ m mtxt r1 heq c hc with h | h
        · exact Or.inr (Or.inr (Or.inr (Or.inl h)))
        · exact Or.inr (Or.inr (Or.inr (Or.inr (Or.inr (Or.inr h)))))
    · rcases parseExp_chars r1 c hc with h | h | h | h | h
      · exact Or.inr (Or.inr (Or.inr (Or.inr (Or.inl h))))
      · exact Or.inr (Or.inr (Or.inr (Or.inr (Or.inr (Or.inl h)))))
      · exact Or.inr (Or.inl h)
      · exact Or.inr (Or.inr (Or.inl h))
      · exact Or.inr (Or.inr (Or.inr (Or.inr (Or.inr (Or.inr h)))))

/-- In particular a consumed float literal never contains a `T` (the head of
the TIME: tag). -/
theorem stodParse_no_T (s : List Char) (fv : FloatVal) (rest : List Char)
    (h : stodParse s = some (fv, rest)) : 'T' ∉ fv.text := by
  intro hmem
  rcases stodParse_chars s fv rest h 'T' hmem with
    h | h | h | h | h | h | h <;> exact absurd h (by decide)

end CarbonSensors

namespace CarbonSensors

/-! ## Locating the tags inside a canonical payload -/

/-- A payload beginning with the tag is found at index 0. -/
theorem findSub_prefix_self (pat w : List Char) :
    findSub pat (pat ++ w) = some 0 := by
  apply findSub_eq_some
  · have h := occursAt_append_self pat [] w
    simpa using h
  · intro i hi
    exact absurd hi (by omega)

/-- A tag whose head character is absent from the front block is first found
right after that block. -/
theorem findSub_after_clean (c : Char) (pat' u w : List Char) (hc : c ∉ u) :
    findSub (c :: pat') (u ++ ((c :: pat') ++ w)) = some u.length :=
  findSub_eq_some _ _ _ (occursAt_append_self _ u w)
    (not_occursAt_in_front c pat' u ((c :: pat') ++ w) hc)

/-- `CO2:` does not occur before its own position in a flat payload, even
though `COMPANY:` also begins with `C`: the candidate start at the `C` of
`COMPANY:` is ruled out by its third character. -/
theorem not_occursAt_CO2_prefix (a b v : List Char)
    (ha : 'C' ∉ a) (hb : 'C' ∉ b) :
    ∀ i < a.length + 8 + b.length,
      occursAt tagCO2 (a ++ (tagCOMPANY ++ (b ++ v))) i = false := by
  intro i hi
  by_contra hcon
  rw [Bool.not_eq_false] at hcon
  have hC : (a ++ (tagCOMPANY ++ (b ++ v)))[i]? = some 'C' := by
    have h := occursAt_char tagCO2 _ i 0 hcon (by decide)
    simpa [tagCO2] using h
  by_cases hia : i < a.length
  · rw [List.getElem?_append_left hia] at hC
    rw [List.getElem?_eq_some] at hC
    obtain ⟨hlt, hx⟩ := hC
    exact ha (hx ▸ List.getElem_mem hlt)
  · have hge := Nat.le_of_not_lt hia
    have hs1 : (a ++ (tagCOMPANY ++ (b ++ v)))[i]?
        = (tagCOMPANY ++ (b ++ v))[i - a.length]? :=
      List.getElem?_append_right hge
    by_cases hib : i - a.length < 8
    · have hs2 : (tagCOMPANY ++ (b ++ v))[i - a.length]?
          = tagCOMPANY[i - a.length]? :=
        List.getElem?_append_left (by simp [tagCOMPANY]; omega)
      rw [hs1, hs2] at hC
      by_cases hj0 : i - a.length = 0
      · have h2 : (a ++ (tagCOMPANY ++ (b ++ v)))[i + 2]? = some '2' := by
          have h := occursAt_char tagCO2 _ i 2 hcon (by decide)
          simpa [tagCO2] using h
        have hs3 : (a ++ (tagCOMPANY ++ (b ++ v)))[i + 2]?
            = (tagCOMPANY ++ (b ++ v))[i + 2 - a.length]? :=
          List.getElem?_append_right (by omega)
        have hs4 : (tagCOMPANY ++ (b ++ v))[i + 2 - a.length]?
            = tagCOMPANY[2]? := by
          rw [show i + 2 - a.length = 2 from by omega]
          exact List.getElem?_append_left (by simp [tagCOMPANY])
        rw [hs3, hs4] at h2
        exact absurd h2 (by decide)
      · have hj1 : 1 ≤ i - a.length := by omega
        set j := i - a.length with hj
        interval_cases j <;> exact absurd hC (by decide)
    · have hbi : i - a.length - 8 < b.length := by omega
      have hs2 : (tagCOMPANY ++ (b ++ v))[i - a.length]?
          = (b ++ v)[i - a.length - tagCOMPANY.length]? :=
        List.getElem?_append_right (by simp [tagCOMPANY]; omega)
      rw [show (tagCOMPANY : List Char).length = 8 from rfl] at hs2
      have hs3 : (b ++ v)[i - a.length - 8]? = b[i - a.length - 8]? :=
        List.getElem?_append_left hbi
      rw [hs1, hs2, hs3] at hC
      rw [List.getElem?_eq_some] at hC
      obtain ⟨hlt, hx⟩ := hC
      exact hb (hx ▸ List.getElem_mem hlt)

/-! ## The round-trip law on canonical payloads -/

/-- Decoding a flat-topology payload produced by `SendCO2Reading` recovers
the reading, provided the `uint32` id fields fit in `int` (`std::stoi`
throws `out_of_range` above `2^31 - 1`), the timestamp fits in `uint64`,
and the CO2 text is a float literal that `strtod` consumes entirely with
the reading's value. -/
theorem decodeFlat_encodeFlat (r : FlatReading)
    (h1 : r.sensorId ≤ 2147483647) (h2 : r.companyId ≤ 2147483647)
    (h3 : r.time < uint64Size)
    (hf : stodParse r.co2.text = some (⟨r.co2.text, r.co2.val⟩, [])) :
    decodeFlat (encodeFlat r) = .ok r := by
  obtain ⟨sid, cid, ⟨ftext, fval⟩, tms⟩ := r
  dsimp only at h1 h2 h3 hf ⊢
  have hL : encodeFlat ⟨sid, cid, ⟨ftext, fval⟩, tms⟩
      = tagSENSOR ++ (natDigits sid ++ ([','] ++ (tagCOMPANY ++ (natDigits cid
          ++ ([','] ++ (tagCO2 ++ (ftext ++ ([','] ++ (tagTIME
          ++ natDigits tms))))))))) := by
    simp [encodeFlat, List.append_assoc]
  rw [hL]
  set d1 := natDigits sid with hd1
  set d2 := natDigits cid with hd2
  set d3 := natDigits tms with hd3
  set L := tagSENSOR ++ (d1 ++ ([','] ++ (tagCOMPANY ++ (d2 ++ ([','] ++
    (tagCO2 ++ (ftext ++ ([','] ++ (tagTIME ++ d3))))))))) with hLdef
  -- character-absence facts
  have hCa : 'C' ∉ tagSENSOR ++ d1 ++ [','] := by
    intro hmem
    rcases List.mem_append.mp hmem with hmem | hmem
    · rcases List.mem_append.mp hmem with hmem | hmem
      · exact absurd hmem (by decide)
      · exact not_mem_natDigits sid 'C' (by decide) hmem
    · exact absurd hmem (by decide)
  have hCb : 'C' ∉ d2 ++ [','] := by
    intro hmem
    rcases List.mem_append.mp hmem with hmem | hmem
    · exact not_mem_natDigits cid 'C' (by decide) hmem
    · exact absurd hmem (by decide)
  have hTfront : 'T' ∉ tagSENSOR ++ d1 ++ [','] ++ tagCOMPANY ++ d2 ++ [',']
      ++ tagCO2 ++ ftext ++ [','] := by
    intro hmem
    rcases List.mem_append.mp hmem with hmem | hmem
    · rcases List.mem_append.mp hmem with hmem | hmem
      · rcases List.mem_append.mp hmem with hmem | hmem
        · rcases List.mem_append.mp hmem with hmem | hmem
          · rcases List.mem_append.mp hmem with hmem | hmem
            · rcases List.mem_append.mp hmem with hmem | hmem
              · rcases List.mem_append.mp hmem with hmem | hmem
                · rcases List.mem_append.mp hmem with hmem | hmem
                  · exact absurd hmem (by decide)
                  · exact not_mem_natDigits sid 'T' (by decide) hmem
                · exact absurd hmem (by decide)
              · exact absurd hmem (by decide)
            · exact not_mem_natDigits cid 'T' (by decide) hmem
          · exact absurd hmem (by decide)
        · exact absurd hmem (by decide)
      · exact stodParse_no_T ftext ⟨ftext, fval⟩ [] hf hmem
    · exact absurd hmem (by decide)
  -- tag positions
  have hfS : findSub tagSENSOR L = some 0 := by
    rw [hLdef]
    exact findSub_prefix_self tagSENSOR _
  have hfC : findSub tagCOMPANY L = some (8 + d1.length) := by
    have hshape : L = (tagSENSOR ++ d1 ++ [',']) ++ (tagCOMPANY ++ (d2 ++
        ([','] ++ (tagCO2 ++ (ftext ++ ([','] ++ (tagTIME ++ d3))))))) := by
      rw [hLdef]
      simp [List.append_assoc]
    rw [hshape,
        show tagCOMPANY = 'C' :: ['O', 'M', 'P', 'A', 'N', 'Y', ':'] from rfl,
        findSub_after_clean 'C' ['O', 'M', 'P', 'A', 'N', 'Y', ':'] _ _ hCa]
    congr 1
    simp [tagSENSOR]
    omega
  have hfO : findSub tagCO2 L = some (17 + d1.length + d2.length) := by
    apply findSub_eq_some
    · have hshape : L = ((tagSENSOR ++ d1 ++ [',']) ++ tagCOMPANY ++
          (d2 ++ [','])) ++ (tagCO2 ++ (ftext ++ ([','] ++ (tagTIME ++ d3)))) := by
        rw [hLdef]
        simp [List.append_assoc]
      rw [hshape]
      have hlen : ((tagSENSOR ++ d1 ++ [',']) ++ tagCOMPANY ++
          (d2 ++ [','])).length = 17 + d1.length + d2.length := by
        simp [tagSENSOR, tagCOMPANY]
        omega
      rw [← hlen]
      exact occursAt_append_self tagCO2 _ _
    · intro i hi
      have hshape : L = (tagSENSOR ++ d1 ++ [',']) ++ (tagCOMPANY ++
          ((d2 ++ [',']) ++ (tagCO2 ++ (ftext ++ ([','] ++ (tagTIME ++ d3)))))) := by
        rw [hLdef]
        simp [List.append_assoc]
      rw [hshape]
      apply not_occursAt_CO2_prefix (tagSENSOR ++ d1 ++ [',']) (d2 ++ [','])
        (tagCO2 ++ (ftext ++ ([','] ++ (tagTIME ++ d3)))) hCa hCb
      simp [tagSENSOR]
      omega
  have hfT : findSub tagTIME L
      = some (22 + d1.length + d2.length + ftext.length) := by
    have hshape : L = (tagSENSOR ++ d1 ++ [','] ++ tagCOMPANY ++ d2 ++ [',']
        ++ tagCO2 ++ ftext ++ [',']) ++ (tagTIME ++ d3) := by
      rw [hLdef]
      simp [List.append_assoc]
    rw [hshape,
        show tagTIME = 'T' :: ['I', 'M', 'E', ':'] from rfl,
        findSub_after_clean 'T' ['I', 'M', 'E', ':'] _ _ hTfront]
    congr 1
    simp [tagSENSOR, tagCOMPANY, tagCO2]
    omega
  -- run the decoder
  unfold decodeFlat
  rw [hfS, hfC, hfO, hfT]
  dsimp only
  simp only [Nat.zero_add]
  have e1 : (L.drop 7).take (szsub L.length (8 + d1.length) 8) = d1 := by
    have hsz : szsub L.length (8 + d1.length) 8 = d1.length := by
      unfold szsub
      rw [if_pos (by omega)]
      omega
    have hshape : L = tagSENSOR ++ (d1 ++ ([','] ++ (tagCOMPANY ++ (d2 ++
        ([','] ++ (tagCO2 ++ (ftext ++ ([','] ++ (tagTIME ++ d3))))))))) := hLdef
    rw [hsz, hshape, List.drop_left' (show (tagSENSOR : List Char).length = 7 from rfl),
        List.take_left]
  have e2 : (L.drop (8 + d1.length + 8)).take
      (szsub L.length (17 + d1.length + d2.length) (8 + d1.length + 9)) = d2 := by
    have hsz : szsub L.length (17 + d1.length + d2.length) (8 + d1.length + 9)
        = d2.length := by
      unfold szsub
      rw [if_pos (by omega)]
      omega
    have hshape : L = (tagSENSOR ++ d1 ++ [','] ++ tagCOMPANY) ++ (d2 ++
        ([','] ++ (tagCO2 ++ (ftext ++ ([','] ++ (tagTIME ++ d3)))))) := by
      rw [hLdef]
      simp [List.append_assoc]
    rw [hsz, hshape, List.drop_left' (by simp [tagSENSOR, tagCOMPANY]; omega),
        List.take_left]
  have e3 : (L.drop (17 + d1.length + d2.length + 4)).take
      (szsub L.length (22 + d1.length + d2.length + ftext.length)
        (17 + d1.length + d2.length + 5)) = ftext := by
    have hsz : szsub L.length (22 + d1.length + d2.length + ftext.length)
        (17 + d1.length + d2.length + 5) = ftext.length := by
      unfold szsub
      rw [if_pos (by omega)]
      omega
    have hshape : L = (tagSENSOR ++ d1 ++ [','] ++ tagCOMPANY ++ d2 ++ [',']
        ++ tagCO2) ++ (ftext ++ ([','] ++ (tagTIME ++ d3))) := by
      rw [hLdef]
      simp [List.append_assoc]
    rw [hsz, hshape,
        List.drop_left' (by simp [tagSENSOR, tagCOMPANY, tagCO2]; omega),
        List.take_left]
  have e4 : L.drop (22 + d1.length + d2.length + ftext.length + 5) = d3 := by
    have hshape : L = (tagSENSOR ++ d1 ++ [','] ++ tagCOMPANY ++ d2 ++ [',']
        ++ tagCO2 ++ ftext ++ [','] ++ tagTIME) ++ d3 := by
      rw [hLdef]
      simp [List.append_assoc]
    rw [hshape,
        List.drop_left' (by simp [tagSENSOR, tagCOMPANY, tagCO2, tagTIME]; omega)]
  rw [e1, e2, e3, e4]
  have hv1 : digitsVal d1 = sid := digitsVal_natDigits sid
  have hv2 : digitsVal d2 = cid := digitsVal_natDigits cid
  have hv3 : digitsVal d3 = tms := digitsVal_natDigits tms
  have hstoi1 : cppStoi d1 = some ((sid : Nat) : Int) := by
    have hr : (digitsVal d1 : Int) ≤ intMax := by
      rw [hv1]
      unfold intMax
      exact_mod_cast h1
    rw [cppStoi_digits d1 (natDigits_ne_nil sid) (natDigits_chars sid) hr, hv1]
  have hstoi2 : cppStoi d2 = some ((cid : Nat) : Int) := by
    have hr : (digitsVal d2 : Int) ≤ intMax := by
      rw [hv2]
      unfold intMax
      exact_mod_cast h2
    rw [cppStoi_digits d2 (natDigits_ne_nil cid) (natDigits_chars cid) hr, hv2]
  have hstoull3 : cppStoull d3 = some tms := by
    rw [cppStoull_digits d3 (natDigits_ne_nil tms) (natDigits_chars tms)
        (by rw [hv3]; exact h3), hv3]
  rw [hstoi1, hstoi2, hf, hstoull3]
  dsimp only
  rw [toU32_coe sid (lt_of_le_of_lt h1 (by norm_num)),
      toU32_coe cid (lt_of_le_of_lt h2 (by norm_num))]

/-- Decoding a hierarchical payload produced by `SendCO2Reading` recovers
the reading, under the corresponding range conditions. -/
theorem decodeHier_encodeHier (r : HierReading)
    (h1 : r.sensorId ≤ 2147483647) (h2 : r.zoneId ≤ 2147483647)
    (hf : stodParse r.co2.text = some (⟨r.co2.text, r.co2.val⟩, [])) :
    decodeHier (encodeHier r) = .ok r := by
  obtain ⟨sid, zid, ⟨ftext, fval⟩⟩ := r
  dsimp only at h1 h2 hf ⊢
  have hL : encodeHier ⟨sid, zid, ⟨ftext, fval⟩⟩
      = tagSENSOR ++ (natDigits sid ++ ([','] ++ (tagZONE ++ (natDigits zid
          ++ ([','] ++ tagCO2 ++ ftext))))) := by
    simp [encodeHier, List.append_assoc]
  rw [hL]
  set d1 := natDigits sid with hd1
  set d2 := natDigits zid with hd2
  set L := tagSENSOR ++ (d1 ++ ([','] ++ (tagZONE ++ (d2 ++
    ([','] ++ tagCO2 ++ ftext))))) with hLdef
  have hZa : 'Z' ∉ tagSENSOR ++ d1 ++ [','] := by
    intro hmem
    rcases List.mem_append.mp hmem with hmem | hmem
    · rcases List.mem_append.mp hmem with hmem | hmem
      · exact absurd hmem (by decide)
      · exact not_mem_natDigits sid 'Z' (by decide) hmem
    · exact absurd hmem (by decide)
  have hCa : 'C' ∉ tagSENSOR ++ d1 ++ [','] ++ tagZONE ++ d2 ++ [','] := by
    intro hmem
    rcases List.mem_append.mp hmem with hmem | hmem
    · rcases List.mem_append.mp hmem with hmem | hmem
      · rcases List.mem_append.mp hmem with hmem | hmem
        · rcases List.mem_append.mp hmem with hmem | hmem
          · rcases List.mem_append.mp hmem with hmem | hmem
            · exact absurd hmem (by decide)
            · exact not_mem_natDigits sid 'C' (by decide) hmem
          · exact absurd hmem (by decide)
        · exact absurd hmem (by decide)
      · exact not_mem_natDigits zid 'C' (by decide) hmem
    · exact absurd hmem (by decide)
  have hfS : findSub tagSENSOR L = some 0 := by
    rw [hLdef]
    exact findSub_prefix_self tagSENSOR _
  have hfZ : findSub tagZONE L = some (8 + d1.length) := by
    have hshape : L = (tagSENSOR ++ d1 ++ [',']) ++ (tagZONE ++ (d2 ++
        ([','] ++ tagCO2 ++ ftext))) := by
      rw [hLdef]
      simp [List.append_assoc]
    rw [hshape,
        show tagZONE = 'Z' :: ['O', 'N', 'E', ':'] from rfl,
        findSub_after_clean 'Z' ['O', 'N', 'E', ':'] _ _ hZa]
    congr 1
    simp [tagSENSOR]
    omega
  have hfO : findSub tagCO2 L = some (14 + d1.length + d2.length) := by
    have hshape : L = (tagSENSOR ++ d1 ++ [','] ++ tagZONE ++ d2 ++ [','])
        ++ (tagCO2 ++ ftext) := by
      rw [hLdef]
      simp [List.append_assoc]
    rw [hshape,
        show tagCO2 = 'C' :: ['O', '2', ':'] from rfl,
        findSub_after_clean 'C' ['O', '2', ':'] _ _ hCa]
    congr 1
    simp [tagSENSOR, tagZONE]
    omega
  unfold decodeHier
  rw [hfS, hfZ, hfO]
  dsimp only
  simp only [Nat.zero_add]
  have e1 : (L.drop 7).take (szsub L.length (8 + d1.length) 8) = d1 := by
    have hsz : szsub L.length (8 + d1.length) 8 = d1.length := by
      unfold szsub
      rw [if_pos (by omega)]
      omega
    rw [hsz, hLdef, List.drop_left' (show (tagSENSOR : List Char).length = 7 from rfl),
        List.take_left]
  have e2 : (L.drop (8 + d1.length + 5)).take
      (szsub L.length (14 + d1.length + d2.length) (8 + d1.length + 6)) = d2 := by
    have hsz : szsub L.length (14 + d1.length + d2.length) (8 + d1.length + 6)
        = d2.length := by
      unfold szsub
      rw [if_pos (by omega)]
      omega
    have hshape : L = (tagSENSOR ++ d1 ++ [','] ++ tagZONE) ++ (d2 ++
        ([','] ++ tagCO2 ++ ftext)) := by
      rw [hLdef]
      simp [List.append_assoc]
    rw [hsz, hshape, List.drop_left' (by simp [tagSENSOR, tagZONE]; omega),
        List.take_left]
  have e3 : L.drop (14 + d1.length + d2.length + 4) = ftext := by
    have hshape : L = (tagSENSOR ++ d1 ++ [','] ++ tagZONE ++ d2 ++ [',']
        ++ tagCO2) ++ ftext := by
      rw [hLdef]
      simp [List.append_assoc]
    rw [hshape,
        List.drop_left' (by simp [tagSENSOR, tagZONE, tagCO2]; omega)]
  rw [e1, e2, e3]
  have hv1 : digitsVal d1 = sid := digitsVal_natDigits sid
  have hv2 : digitsVal d2 = zid := digitsVal_natDigits zid
  have hstoi1 : cppStoi d1 = some ((sid : Nat) : Int) := by
    have hr : (digitsVal d1 : Int) ≤ intMax := by
      rw [hv1]
      unfold intMax
      exact_mod_cast h1
    rw [cppStoi_digits d1 (natDigits_ne_nil sid) (natDigits_chars sid) hr, hv1]
  have hstoi2 : cppStoi d2 = some ((zid : Nat) : Int) := by
    have hr : (digitsVal d2 : Int) ≤ intMax := by
      rw [hv2]
      unfold intMax
      exact_mod_cast h2
    rw [cppStoi_digits d2 (natDigits_ne_nil zid) (natDigits_chars zid) hr, hv2]
  rw [hstoi1, hstoi2, hf]
  dsimp only
  rw [toU32_coe sid (lt_of_le_of_lt h1 (by norm_num)),
      toU32_coe zid (lt_of_le_of_lt h2 (by norm_num))]

end CarbonSensors

namespace CarbonSensors

/-- **C1, counterexample.**  The reading with `sensorId = 2^31`
(representable in `uint32_t`, decimal digits only, so no field contains
another tag's prefix) does not survive the round trip: `std::stoi` parses
the sensor field through `int` and throws an uncaught `out_of_range`, so
decoding the encoded payload aborts instead of yielding the reading. -/
theorem codec_roundtrip_cex :
    decodeFlat (encodeFlat ⟨2147483648, 1, ⟨"400".data, 400⟩, 5⟩)
      = .exn ∧
    decodeFlat (encodeFlat ⟨2147483648, 1, ⟨"400".data, 400⟩, 5⟩)
      ≠ .ok ⟨2147483648, 1, ⟨"400".data, 400⟩, 5⟩ := by
  have h : decodeFlat (encodeFlat ⟨2147483648, 1, ⟨"400".data, 400⟩, 5⟩)
      = .exn := by
    with_unfolding_all rfl
  refine ⟨h, ?_⟩
  rw [h]
  intro hcon
  exact DecodeOutcome.noConfusion hcon

/-- **C1, amended.**  Round-trip law with the machine ranges the code
imposes: for every flat reading whose `sensorId` and `companyId` are at
most `2^31 - 1` (beyond that `std::stoi` throws), whose timestamp fits in
`uint64`, and whose CO2 text is a float literal consumed entirely by
`strtod` (every text `operator<<` prints for a double in range is one, and
such texts cannot contain a tag), decoding the encoded payload yields the
reading back; likewise for every hierarchical reading with `sensorId` and
`zoneId` at most `2^31 - 1`. -/
theorem codec_roundtrip (r : FlatReading) (s : HierReading)
    (h1 : r.sensorId ≤ 2147483647) (h2 : r.companyId ≤ 2147483647)
    (h3 : r.time < uint64Size)
    (hf : stodParse r.co2.text = some (⟨r.co2.text, r.co2.val⟩, []))
    (g1 : s.sensorId ≤ 2147483647) (g2 : s.zoneId ≤ 2147483647)
    (gf : stodParse s.co2.text = some (⟨s.co2.text, s.co2.val⟩, [])) :
    decodeFlat (encodeFlat r) = .ok r ∧
    decodeHier (encodeHier s) = .ok s :=
  ⟨decodeFlat_encodeFlat r h1 h2 h3 hf, decodeHier_encodeHier s g1 g2 gf⟩

/-- Witness for `codec_roundtrip`: concrete readings in both topologies. -/
theorem codec_roundtrip_witness :
    decodeFlat (encodeFlat ⟨3, 2, ⟨"457.312".data, 57164 / 125⟩, 1500000⟩)
      = .ok ⟨3, 2, ⟨"457.312".data, 57164 / 125⟩, 1500000⟩ ∧
    decodeHier (encodeHier ⟨7, 4, ⟨"612.5".data, 6125 / 10⟩⟩)
      = .ok ⟨7, 4, ⟨"612.5".data, 6125 / 10⟩⟩ :=
  codec_roundtrip ⟨3, 2, ⟨"457.312".data, 57164 / 125⟩, 1500000⟩
    ⟨7, 4, ⟨"612.5".data, 6125 / 10⟩⟩
    (by norm_num) (by norm_num) (by decide)
    (by with_unfolding_all rfl)
    (by norm_num) (by norm_num)
    (by with_unfolding_all rfl)

end CarbonSensors
